import Mathlib

/-!
# go-post-api: cache-aside repositories and ownership-scoped services

A shallow embedding of the repository layer (`internal/app/repository/comment.go`,
`internal/app/repository/post.go`), of the service layer
(`internal/app/service/comment.go`, `internal/app/service/account.go`) and of the comment
handlers (`internal/app/handler/comment.go`).

The two external collaborators, the relational store and the volatile cache, are part
of an explicit `World` that every operation takes and returns:

* `rows` is the table of the resource in row order, `nextID` the auto-increment counter;
* `cache` is the key-value cache as an association list from key string to snapshot;
* `faults` is a script of infrastructure failures: every call to a collaborator takes the
  next entry of the script, `some msg` makes that call fail with an opaque error and
  leaves the collaborator untouched, `none` (or an exhausted script) lets it go through;
* `trace` records every call issued to a collaborator, in order.

Go's `(value, error)` results are pairs of options, a `*T` that is `nil` is `none`, and
the dereference of a nil pointer is the outcome `Run.panicked`.  `time.Time` is a natural
number, `int64` and `int` are `Int`.  Cache expiry (the TTL) is not part of the model:
the operations of one theorem follow each other immediately.  Calls to the logger have no
effect on results or collaborators and are left out.
-/

namespace PostApi

/-! ## Errors -/

/-- Go error values that flow through the repository, service and handler layers:
`sql.ErrNoRows`, `cache.ErrCacheMiss`, an opaque failure carrying its message, and the
errors of package `constant` (`ErrFieldValidation` is the value of
`constant.NewErrFieldValidation` for the field that failed). -/
inductive Error where
  | ErrNoRows
  | ErrCacheMiss
  | infra (msg : String)
  | ErrUnauthorized
  | ErrServer
  | ErrCommentNotFound
  | ErrAccountNotFound
  | ErrEmailRegistered
  | ErrWrongPassword
  | ErrRequestBody
  | ErrFieldValidation (field : String)
  deriving DecidableEq, Repr

/-- Outcome of a Go call that may dereference a nil pointer. -/
inductive Run (α : Type) where
  | returned (a : α)
  | panicked
  deriving DecidableEq, Repr

/-! ## Entities -/

/-- Go `sql.NullTime`. -/
structure NullTime where
  Time : Nat
  Valid : Bool
  deriving DecidableEq, Repr

/-- Go `model.Comment`.  The embedded `Account` and `Post` structs are never read or
assigned by the repository and the service and are left out. -/
structure Comment where
  ID : Int
  Body : String
  CreatedAt : Nat
  UpdatedAt : NullTime
  AccountID : Int
  PostID : Int
  deriving DecidableEq, Repr

/-- Go `model.Post`, with the columns that `postRepository` scans and writes. -/
structure Post where
  ID : Int
  Title : String
  Body : String
  CreatedAt : Nat
  UpdatedAt : NullTime
  AccountID : Int
  deriving DecidableEq, Repr

/-! ## The collaborators -/

/-- Calls issued to the store and to the cache. -/
inductive Event where
  | cacheGet (key : String)
  | cacheSet (key : String)
  | cacheDelete (key : String)
  | sqlInsert
  | sqlLastInsertId
  | sqlSelect (id : Int)
  | sqlQuery
  | sqlScan
  | sqlUpdate (id : Int)
  | sqlDelete (id : Int)
  deriving DecidableEq, Repr

/-- Store table, cache, fault script and call trace of one resource type. -/
structure World (E : Type) where
  rows : List E
  nextID : Int
  cache : List (String × E)
  faults : List (Option String)
  trace : List Event
  deriving DecidableEq, Repr

/-- The scripted fault of the `k`-th next call to a collaborator. -/
def World.faultAt {E : Type} (w : World E) (k : Nat) : Option String :=
  (w.faults.get? k).join

/-- Issue one call to a collaborator: record it and take the next scripted fault. -/
def World.call {E : Type} (w : World E) (ev : Event) : Option Error × World E :=
  match w.faults with
  | [] => (none, { w with trace := w.trace ++ [ev] })
  | f :: fs => (f.map Error.infra, { w with faults := fs, trace := w.trace ++ [ev] })

/-- The world after one call was issued: the script moved on, the call recorded. -/
def World.step {E : Type} (w : World E) (ev : Event) : World E :=
  { w with faults := w.faults.tail, trace := w.trace ++ [ev] }

/-- The world with the cache contents replaced by `c`. -/
def World.withCache {E : Type} (w : World E) (c : List (String × E)) : World E :=
  { w with cache := c }

/-- Value stored in the cache under `key`. -/
def cacheLookup {E : Type} (key : String) : List (String × E) → Option E
  | [] => none
  | (k, v) :: rest => if k = key then some v else cacheLookup key rest

/-- The cache without any entry under `key`. -/
def cacheErase {E : Type} (key : String) (c : List (String × E)) : List (String × E) :=
  c.filter (fun kv => decide (kv.1 ≠ key))

/-- The world after a store write `ev` that left the table `rows` and the invalidation
of `key` that follows it, both answered without fault. -/
def World.invalidated {E : Type} (w : World E) (rows : List E) (ev : Event)
    (key : String) : World E :=
  { rows := rows, nextID := w.nextID,
    cache := cacheErase key w.cache,
    faults := w.faults.tail.tail, trace := w.trace ++ [ev, .cacheDelete key] }

/-- The world after an `INSERT` that stored `row` and the `LastInsertId` call that
follows it. -/
def World.inserted {E : Type} (w : World E) (row : E) : World E :=
  { rows := w.rows ++ [row], nextID := w.nextID + 1, cache := w.cache,
    faults := w.faults.tail.tail, trace := w.trace ++ [.sqlInsert, .sqlLastInsertId] }

/-- Cache `Get(ctx, key, &value)`: the decoded snapshot, `ErrCacheMiss` when there is no
entry, or the scripted fault. -/
def cacheGet {E : Type} (w : World E) (key : String) : Except Error E × World E :=
  match w.call (.cacheGet key) with
  | (some e, w1) => (.error e, w1)
  | (none, w1) =>
    match cacheLookup key w1.cache with
    | none => (.error .ErrCacheMiss, w1)
    | some v => (.ok v, w1)

/-- Cache `Set(&cache.Item{Key, Value, TTL})`. -/
def cacheSet {E : Type} (w : World E) (key : String) (v : E) : Option Error × World E :=
  match w.call (.cacheSet key) with
  | (some e, w1) => (some e, w1)
  | (none, w1) => (none, { w1 with cache := (key, v) :: cacheErase key w1.cache })

/-- Cache `Delete(ctx, key)`: removes the entry; an absent entry is reported with the
miss signal. -/
def cacheDelete {E : Type} (w : World E) (key : String) : Option Error × World E :=
  match w.call (.cacheDelete key) with
  | (some e, w1) => (some e, w1)
  | (none, w1) =>
    match cacheLookup key w1.cache with
    | none => (some .ErrCacheMiss, w1)
    | some _ => (none, { w1 with cache := cacheErase key w1.cache })

/-- The number that a list of decimal digit characters stands for; it reads back the
`%d` rendering of an identifier. -/
def decimalValue (cs : List Char) : Nat :=
  cs.foldl (fun a c => 10 * a + (c.toNat - 48)) 0

/-- Go `fmt.Sprintf("comment_%d", id)`. -/
def commentKey (id : Int) : String := "comment_" ++ toString id

/-- Go `fmt.Sprintf("post_%d", id)`. -/
def postKey (id : Int) : String := "post_" ++ toString id

/-- The `rows.Next()` / `rows.Scan` loop of `List`: every row is scanned in turn, a
failing scan aborts the loop with its error. -/
def scanRows {E : Type} : World E → List E → Except Error (List E) × World E
  | w, [] => (.ok [], w)
  | w, r :: rest =>
    match w.call .sqlScan with
    | (some e, w1) => (.error e, w1)
    | (none, w1) =>
      match scanRows w1 rest with
      | (.error e, w2) => (.error e, w2)
      | (.ok rs, w2) => (.ok (r :: rs), w2)

/-- SQL `LIMIT ? OFFSET ?` applied to the matching rows; the store rejects a negative
bound. -/
def limitOffset {E : Type} (limit offset : Int) (rs : List E) : Except Error (List E) :=
  if limit < 0 ∨ offset < 0 then .error (.infra "sql: negative LIMIT or OFFSET")
  else .ok ((rs.drop offset.toNat).take limit.toNat)

/-! ## `commentRepository` -/

namespace commentRepository

/-- The row left by `SELECT ... FROM comment WHERE comment.id = ?`. -/
def selectRow (rows : List Comment) (id : Int) : Option Comment :=
  rows.find? (fun r => decide (r.ID = id))

/-- The row stored by `INSERT INTO comment (body, account_id, post_id, created_at)`
under the identifier `id` assigned by the store; `updated_at` is left NULL. -/
def insertedRow (id : Int) (comment : Comment) : Comment :=
  { ID := id, Body := comment.Body, CreatedAt := comment.CreatedAt,
    UpdatedAt := { Time := 0, Valid := false },
    AccountID := comment.AccountID, PostID := comment.PostID }

/-- The table after `UPDATE comment SET body = ?, updated_at = ? WHERE id = ?`. -/
def updatedRows (rows : List Comment) (comment : Comment) : List Comment :=
  rows.map (fun r =>
    if r.ID = comment.ID then
      { r with Body := comment.Body,
               UpdatedAt := { Time := comment.UpdatedAt.Time, Valid := true } }
    else r)

/-- The table after `DELETE FROM comment WHERE id = ?`. -/
def deletedRows (rows : List Comment) (id : Int) : List Comment :=
  rows.filter (fun r => decide (r.ID ≠ id))

/-- Go `commentRepository.Get`. -/
def Get (w : World Comment) (id : Int) : (Option Comment × Option Error) × World Comment :=
  match cacheGet w (commentKey id) with
  | (.ok comment, w1) => ((some comment, none), w1)
  | (.error e, w1) =>
    if e ≠ .ErrCacheMiss then ((none, some e), w1)
    else
      match w1.call (.sqlSelect id) with
      | (some e2, w2) => ((none, some e2), w2)
      | (none, w2) =>
        match selectRow w2.rows id with
        | none => ((none, some .ErrNoRows), w2)
        | some comment =>
          let (err, w3) := cacheSet w2 (commentKey id) comment
          ((some comment, err), w3)

/-- Go `commentRepository.Create`.  The result carries the error and the final value of
`*comment`; a failing `LastInsertId` assigns the zero identifier.  The error of the
re-read is not looked at: a nil entity is dereferenced, anything else ends in
`return nil`. -/
def Create (w : World Comment) (comment : Comment) :
    Run (Option Error × Comment) × World Comment :=
  match w.call .sqlInsert with
  | (some e, w1) => (.returned (some e, comment), w1)
  | (none, w1) =>
    let w2 := { w1 with rows := w1.rows ++ [insertedRow w1.nextID comment],
                        nextID := w1.nextID + 1 }
    match w2.call .sqlLastInsertId with
    | (some e, w3) => (.returned (some e, { comment with ID := 0 }), w3)
    | (none, w3) =>
      let comment1 := { comment with ID := w1.nextID }
      match Get w3 comment1.ID with
      | ((none, _), w4) => (.panicked, w4)
      | ((some temp, _), w4) => (.returned (none, temp), w4)

/-- Go `commentRepository.List`. -/
def List (w : World Comment) (limit offset post_id : Int) :
    (Except Error (List Comment)) × World Comment :=
  match w.call .sqlQuery with
  | (some e, w1) => (.error e, w1)
  | (none, w1) =>
    match limitOffset limit offset (w1.rows.filter (fun r => decide (r.PostID = post_id))) with
    | .error e => (.error e, w1)
    | .ok rs => scanRows w1 rs

/-- Go `commentRepository.Update`.  The result carries the error and the final value of
`*comment`; the entity of the re-read is dereferenced before its error is returned. -/
def Update (w : World Comment) (comment : Comment) :
    Run (Option Error × Comment) × World Comment :=
  match w.call (.sqlUpdate comment.ID) with
  | (some e, w1) => (.returned (some e, comment), w1)
  | (none, w1) =>
    let w2 := { w1 with rows := updatedRows w1.rows comment }
    match cacheDelete w2 (commentKey comment.ID) with
    | (err, w3) =>
      if err ≠ none ∧ err ≠ some .ErrCacheMiss then (.returned (err, comment), w3)
      else
        match Get w3 comment.ID with
        | ((none, _), w4) => (.panicked, w4)
        | ((some temp, err), w4) => (.returned (err, temp), w4)

/-- Go `commentRepository.Delete`. -/
def Delete (w : World Comment) (id : Int) : Option Error × World Comment :=
  match w.call (.sqlDelete id) with
  | (some e, w1) => (some e, w1)
  | (none, w1) =>
    let w2 := { w1 with rows := deletedRows w1.rows id }
    match cacheDelete w2 (commentKey id) with
    | (err, w3) =>
      if err ≠ none ∧ err ≠ some .ErrCacheMiss then (err, w3)
      else (none, w3)

end commentRepository

/-! ## `postRepository` -/

namespace postRepository

/-- The row left by `SELECT ... FROM post WHERE post.id = ?`. -/
def selectRow (rows : List Post) (id : Int) : Option Post :=
  rows.find? (fun r => decide (r.ID = id))

/-- The row stored by `INSERT INTO post (title, body, account_id, created_at)` under the
identifier `id` assigned by the store; `updated_at` is left NULL. -/
def insertedRow (id : Int) (post : Post) : Post :=
  { ID := id, Title := post.Title, Body := post.Body, CreatedAt := post.CreatedAt,
    UpdatedAt := { Time := 0, Valid := false }, AccountID := post.AccountID }

/-- The table after `UPDATE post SET title = ?, body = ?, updated_at = ? WHERE id = ?`. -/
def updatedRows (rows : List Post) (post : Post) : List Post :=
  rows.map (fun r =>
    if r.ID = post.ID then
      { r with Title := post.Title, Body := post.Body,
               UpdatedAt := { Time := post.UpdatedAt.Time, Valid := true } }
    else r)

/-- The table after `DELETE FROM post WHERE id = ?`. -/
def deletedRows (rows : List Post) (id : Int) : List Post :=
  rows.filter (fun r => decide (r.ID ≠ id))

/-- Go `postRepository.Get`. -/
def Get (w : World Post) (id : Int) : (Option Post × Option Error) × World Post :=
  match cacheGet w (postKey id) with
  | (.ok post, w1) => ((some post, none), w1)
  | (.error e, w1) =>
    if e ≠ .ErrCacheMiss then ((none, some e), w1)
    else
      match w1.call (.sqlSelect id) with
      | (some e2, w2) => ((none, some e2), w2)
      | (none, w2) =>
        match selectRow w2.rows id with
        | none => ((none, some .ErrNoRows), w2)
        | some post =>
          let (err, w3) := cacheSet w2 (postKey id) post
          ((some post, err), w3)

/-- Go `postRepository.Create`.  The result carries the error and the final value of
`*post`; a failing `LastInsertId` assigns the zero identifier.  The error of the re-read
is not looked at: a nil entity is dereferenced, anything else ends in `return nil`. -/
def Create (w : World Post) (post : Post) : Run (Option Error × Post) × World Post :=
  match w.call .sqlInsert with
  | (some e, w1) => (.returned (some e, post), w1)
  | (none, w1) =>
    let w2 := { w1 with rows := w1.rows ++ [insertedRow w1.nextID post],
                        nextID := w1.nextID + 1 }
    match w2.call .sqlLastInsertId with
    | (some e, w3) => (.returned (some e, { post with ID := 0 }), w3)
    | (none, w3) =>
      let post1 := { post with ID := w1.nextID }
      match Get w3 post1.ID with
      | ((none, _), w4) => (.panicked, w4)
      | ((some temp, _), w4) => (.returned (none, temp), w4)

/-- Go `postRepository.List`.  The store's `LIKE` operator is the parameter `like`,
applied to the pattern `"%" + title + "%"` and the title column. -/
def List (like : String → String → Bool) (w : World Post) (limit offset : Int)
    (title : String) : (Except Error (List Post)) × World Post :=
  match w.call .sqlQuery with
  | (some e, w1) => (.error e, w1)
  | (none, w1) =>
    match limitOffset limit offset
        (w1.rows.filter (fun r => like ("%" ++ title ++ "%") r.Title)) with
    | .error e => (.error e, w1)
    | .ok rs => scanRows w1 rs

/-- Go `postRepository.Update`.  The result carries the error and the final value of
`*post`; the entity of the re-read is dereferenced before its error is returned. -/
def Update (w : World Post) (post : Post) : Run (Option Error × Post) × World Post :=
  match w.call (.sqlUpdate post.ID) with
  | (some e, w1) => (.returned (some e, post), w1)
  | (none, w1) =>
    let w2 := { w1 with rows := updatedRows w1.rows post }
    match cacheDelete w2 (postKey post.ID) with
    | (err, w3) =>
      if err ≠ none ∧ err ≠ some .ErrCacheMiss then (.returned (err, post), w3)
      else
        match Get w3 post.ID with
        | ((none, _), w4) => (.panicked, w4)
        | ((some temp, err), w4) => (.returned (err, temp), w4)

/-- Go `postRepository.Delete`. -/
def Delete (w : World Post) (id : Int) : Option Error × World Post :=
  match w.call (.sqlDelete id) with
  | (some e, w1) => (some e, w1)
  | (none, w1) =>
    let w2 := { w1 with rows := deletedRows w1.rows id }
    match cacheDelete w2 (postKey id) with
    | (err, w3) =>
      if err ≠ none ∧ err ≠ some .ErrCacheMiss then (err, w3)
      else (none, w3)

end postRepository

/-! ## Cache coherence -/

/-- Every cache entry under the key of an identifier is the row of the table with that
identifier; in particular no identifier without a row has an entry. -/
def commentRepository.coherent (w : World Comment) : Prop :=
  ∀ (id : Int) (c : Comment), cacheLookup (commentKey id) w.cache = some c →
    commentRepository.selectRow w.rows id = some c

/-- Every cache entry under the key of an identifier is the row of the table with that
identifier; in particular no identifier without a row has an entry. -/
def postRepository.coherent (w : World Post) : Prop :=
  ∀ (id : Int) (c : Post), cacheLookup (postKey id) w.cache = some c →
    postRepository.selectRow w.rows id = some c

/-! ## Authenticated context -/

/-- Request context: the principal that `JWTVerifier` stored under `claimsIDKey`, absent
on a request that did not pass through it. -/
structure Context where
  claimsID : Option Int
  deriving DecidableEq, Repr

namespace middleware

/-- Modelled from the spec: `middleware.GetClaimsID` (its file is not among the sources)
provides the acting principal's identifier for the current request, or signals that
there is no principal. -/
def GetClaimsID (ctx : Context) : Int × Bool :=
  match ctx.claimsID with
  | some id => (id, true)
  | none => (0, false)

/-- Modelled from the spec: `middleware.IsMe` (its file is not among the sources) is the
ownership guard: the principal may act exactly when it is present and its identifier
equals the given identifier. -/
def IsMe (ctx : Context) (id : Int) : Bool :=
  match GetClaimsID ctx with
  | (claimsID, valid) => valid && decide (claimsID = id)

end middleware

/-! ## Comment requests and responses -/

/-- Go `model.CommentCreateRequest`. -/
structure CommentCreateRequest where
  Body : String
  PostID : Int
  deriving DecidableEq, Repr

/-- Go `model.CommentListRequest`. -/
structure CommentListRequest where
  Limit : Int
  Offset : Int
  PostID : Int
  deriving DecidableEq, Repr

/-- Go `model.CommentGetRequest`. -/
structure CommentGetRequest where
  ID : Int
  deriving DecidableEq, Repr

/-- Go `model.CommentUpdateRequest`. -/
structure CommentUpdateRequest where
  ID : Int
  Body : String
  deriving DecidableEq, Repr

/-- Go `model.CommentDeleteRequest`. -/
structure CommentDeleteRequest where
  ID : Int
  deriving DecidableEq, Repr

/-- Go `model.CommentResponse`; `UpdatedAt` is a `*time.Time`. -/
structure CommentResponse where
  ID : Int
  Body : String
  CreatedAt : Nat
  UpdatedAt : Option Nat
  AccountID : Int
  PostID : Int
  deriving DecidableEq, Repr

/-- Go `model.NewCommentResponse`. -/
def NewCommentResponse (payload : Comment) : CommentResponse :=
  { ID := payload.ID, Body := payload.Body, CreatedAt := payload.CreatedAt,
    UpdatedAt := if payload.UpdatedAt.Valid then some payload.UpdatedAt.Time else none,
    AccountID := payload.AccountID, PostID := payload.PostID }

/-- Go `model.NewCommentListResponse`. -/
def NewCommentListResponse (payloads : List Comment) : List CommentResponse :=
  payloads.map NewCommentResponse

/-! ## `commentService` -/

namespace commentService

/-- Go `commentService.switchErrCommentNotFoundOrErrServer`. -/
def switchErrCommentNotFoundOrErrServer (err : Error) : Error :=
  match err with
  | .ErrNoRows => .ErrCommentNotFound
  | _ => .ErrServer

/-- Go `commentService.Create`; `now` is the value of `time.Now()`. -/
def Create (w : World Comment) (ctx : Context) (now : Nat) (req : CommentCreateRequest) :
    Run (Option CommentResponse × Option Error) × World Comment :=
  match middleware.GetClaimsID ctx with
  | (claimsID, valid) =>
    if !valid then (.returned (none, some .ErrUnauthorized), w)
    else
      let comment : Comment :=
        { ID := 0, Body := req.Body, CreatedAt := now, UpdatedAt := { Time := 0, Valid := false },
          AccountID := claimsID, PostID := req.PostID }
      match commentRepository.Create w comment with
      | (.panicked, w1) => (.panicked, w1)
      | (.returned (some _, _), w1) => (.returned (none, some .ErrServer), w1)
      | (.returned (none, comment1), w1) =>
        (.returned (some (NewCommentResponse comment1), none), w1)

/-- Go `commentService.List`. -/
def List (w : World Comment) (req : CommentListRequest) :
    (Option (List CommentResponse) × Option Error) × World Comment :=
  match commentRepository.List w req.Limit req.Offset req.PostID with
  | (.error _, w1) => ((none, some .ErrServer), w1)
  | (.ok comments, w1) => ((some (NewCommentListResponse comments), none), w1)

/-- Go `commentService.Get`. -/
def Get (w : World Comment) (req : CommentGetRequest) :
    Run (Option CommentResponse × Option Error) × World Comment :=
  match commentRepository.Get w req.ID with
  | ((_, some err), w1) =>
    (.returned (none, some (switchErrCommentNotFoundOrErrServer err)), w1)
  | ((none, none), w1) => (.panicked, w1)
  | ((some comment, none), w1) => (.returned (some (NewCommentResponse comment), none), w1)

/-- Go `commentService.Update`; `now` is the value of `time.Now()`. -/
def Update (w : World Comment) (ctx : Context) (now : Nat) (req : CommentUpdateRequest) :
    Run (Option CommentResponse × Option Error) × World Comment :=
  match commentRepository.Get w req.ID with
  | ((_, some err), w1) =>
    (.returned (none, some (switchErrCommentNotFoundOrErrServer err)), w1)
  | ((none, none), w1) => (.panicked, w1)
  | ((some comment, none), w1) =>
    if !middleware.IsMe ctx comment.AccountID then
      (.returned (none, some .ErrUnauthorized), w1)
    else
      let comment1 := { comment with Body := req.Body }
      let comment2 := { comment1 with UpdatedAt := { comment1.UpdatedAt with Time := now } }
      match commentRepository.Update w1 comment2 with
      | (.panicked, w2) => (.panicked, w2)
      | (.returned (some err, _), w2) =>
        (.returned (none, some (switchErrCommentNotFoundOrErrServer err)), w2)
      | (.returned (none, comment3), w2) =>
        (.returned (some (NewCommentResponse comment3), none), w2)

/-- Go `commentService.Delete`. -/
def Delete (w : World Comment) (ctx : Context) (req : CommentDeleteRequest) :
    Run (Option Error) × World Comment :=
  match commentRepository.Get w req.ID with
  | ((_, some err), w1) => (.returned (some (switchErrCommentNotFoundOrErrServer err)), w1)
  | ((none, none), w1) => (.panicked, w1)
  | ((some comment, none), w1) =>
    if !middleware.IsMe ctx comment.AccountID then (.returned (some .ErrUnauthorized), w1)
    else
      match commentRepository.Delete w1 req.ID with
      | (some err, w2) => (.returned (some (switchErrCommentNotFoundOrErrServer err)), w2)
      | (none, w2) => (.returned none, w2)

end commentService

/-! ## `accountService` -/

/-- Go `model.Account`, with the fields that `accountService` reads and assigns. -/
structure Account where
  ID : Int
  Name : String
  Email : String
  Password : String
  CreatedAt : Nat
  UpdatedAt : NullTime
  deriving DecidableEq, Repr

/-- Go `model.AccountCreateRequest`. -/
structure AccountCreateRequest where
  Name : String
  Email : String
  Password : String
  deriving DecidableEq, Repr

/-- Go `model.AccountListRequest`. -/
structure AccountListRequest where
  Limit : Int
  Offset : Int
  Name : String
  deriving DecidableEq, Repr

/-- Go `model.AccountGetRequest`. -/
structure AccountGetRequest where
  ID : Int
  deriving DecidableEq, Repr

/-- Go `model.AccountUpdateRequest`. -/
structure AccountUpdateRequest where
  ID : Int
  Name : String
  Email : String
  deriving DecidableEq, Repr

/-- Go `model.AccountPasswordUpdateRequest`. -/
structure AccountPasswordUpdateRequest where
  ID : Int
  OldPassword : String
  NewPassword : String
  deriving DecidableEq, Repr

/-- Go `model.AccountDeleteRequest`. -/
structure AccountDeleteRequest where
  ID : Int
  deriving DecidableEq, Repr

/-- Go interface `repository.AccountRepository`, over a state `σ` of its collaborators.
Its implementation is not among the sources, so the service is embedded over every
implementation.  `Create` and `Update` take a `*model.Account` and return its final
value beside the error. -/
structure AccountRepository (σ : Type) where
  GetByEmail : σ → String → (Option Account × Option Error) × σ
  Get : σ → Int → (Option Account × Option Error) × σ
  Create : σ → Account → Run (Option Error × Account) × σ
  List : σ → Int → Int → String → (Option (List Account) × Option Error) × σ
  Update : σ → Account → Run (Option Error × Account) × σ
  Delete : σ → Int → Option Error × σ

/-- What `accountService` takes from outside the sources at hand: the two `bcrypt`
functions and the response builders of package `model`, for a response type `ρ`. -/
structure AccountEnv (ρ : Type) where
  GenerateFromPassword : String → Except Error String
  CompareHashAndPassword : String → String → Option Error
  NewAccountResponse : Account → ρ
  NewAccountListResponse : List Account → List ρ

namespace accountService

/-- Go `accountService.switchErrAccountNotFoundOrErrServer`. -/
def switchErrAccountNotFoundOrErrServer (err : Error) : Error :=
  match err with
  | .ErrNoRows => .ErrAccountNotFound
  | _ => .ErrServer

/-- Go `accountService.Create`; `now` is the value of `time.Now()`. -/
def Create {σ ρ : Type} (repo : AccountRepository σ) (env : AccountEnv ρ) (s : σ)
    (now : Nat) (req : AccountCreateRequest) : Run (Option ρ × Option Error) × σ :=
  match repo.GetByEmail s req.Email with
  | ((_, err), s1) =>
    if err ≠ none ∧ err ≠ some .ErrNoRows then (.returned (none, some .ErrServer), s1)
    else if err = none then (.returned (none, some .ErrEmailRegistered), s1)
    else
      match env.GenerateFromPassword req.Password with
      | .error _ => (.returned (none, some .ErrServer), s1)
      | .ok password =>
        let account : Account :=
          { ID := 0, Name := req.Name, Email := req.Email, Password := password,
            CreatedAt := now, UpdatedAt := { Time := 0, Valid := false } }
        match repo.Create s1 account with
        | (.panicked, s2) => (.panicked, s2)
        | (.returned (some _, _), s2) => (.returned (none, some .ErrServer), s2)
        | (.returned (none, account1), s2) =>
          (.returned (some (env.NewAccountResponse account1), none), s2)

/-- Go `accountService.List`. -/
def List {σ ρ : Type} (repo : AccountRepository σ) (env : AccountEnv ρ) (s : σ)
    (req : AccountListRequest) : (Option (List ρ) × Option Error) × σ :=
  match repo.List s req.Limit req.Offset req.Name with
  | ((_, some _), s1) => ((none, some .ErrServer), s1)
  | ((accounts, none), s1) =>
    ((some (env.NewAccountListResponse (accounts.getD [])), none), s1)

/-- Go `accountService.Get`. -/
def Get {σ ρ : Type} (repo : AccountRepository σ) (env : AccountEnv ρ) (s : σ)
    (req : AccountGetRequest) : Run (Option ρ × Option Error) × σ :=
  match repo.Get s req.ID with
  | ((_, some err), s1) =>
    (.returned (none, some (switchErrAccountNotFoundOrErrServer err)), s1)
  | ((none, none), s1) => (.panicked, s1)
  | ((some account, none), s1) => (.returned (some (env.NewAccountResponse account), none), s1)

/-- Go `accountService.Update`; `now` is the value of `time.Now()`. -/
def Update {σ ρ : Type} (repo : AccountRepository σ) (env : AccountEnv ρ) (s : σ)
    (ctx : Context) (now : Nat) (req : AccountUpdateRequest) :
    Run (Option ρ × Option Error) × σ :=
  if !middleware.IsMe ctx req.ID then (.returned (none, some .ErrUnauthorized), s)
  else
    match repo.GetByEmail s req.Email with
    | ((found, err), s1) =>
      if err ≠ none ∧ err ≠ some .ErrNoRows then (.returned (none, some .ErrServer), s1)
      else if err = none ∧ found.isNone then (.panicked, s1)
      else if err = none ∧ found.map (fun a => a.ID) ≠ some req.ID then
        (.returned (none, some .ErrEmailRegistered), s1)
      else
        match repo.Get s1 req.ID with
        | ((_, some err), s2) =>
          (.returned (none, some (switchErrAccountNotFoundOrErrServer err)), s2)
        | ((none, none), s2) => (.panicked, s2)
        | ((some account, none), s2) =>
          let account1 := { account with Name := req.Name, Email := req.Email }
          let account2 := { account1 with UpdatedAt := { account1.UpdatedAt with Time := now } }
          match repo.Update s2 account2 with
          | (.panicked, s3) => (.panicked, s3)
          | (.returned (some err, _), s3) =>
            (.returned (none, some (switchErrAccountNotFoundOrErrServer err)), s3)
          | (.returned (none, account3), s3) =>
            (.returned (some (env.NewAccountResponse account3), none), s3)

/-- Go `accountService.UpdatePassword`; `now` is the value of `time.Now()`. -/
def UpdatePassword {σ ρ : Type} (repo : AccountRepository σ) (env : AccountEnv ρ) (s : σ)
    (ctx : Context) (now : Nat) (req : AccountPasswordUpdateRequest) :
    Run (Option ρ × Option Error) × σ :=
  if !middleware.IsMe ctx req.ID then (.returned (none, some .ErrUnauthorized), s)
  else
    match repo.Get s req.ID with
    | ((_, some err), s1) =>
      (.returned (none, some (switchErrAccountNotFoundOrErrServer err)), s1)
    | ((none, none), s1) => (.panicked, s1)
    | ((some account, none), s1) =>
      match env.CompareHashAndPassword account.Password req.OldPassword with
      | some _ => (.returned (none, some .ErrWrongPassword), s1)
      | none =>
        match env.GenerateFromPassword req.NewPassword with
        | .error _ => (.returned (none, some .ErrServer), s1)
        | .ok password =>
          let account1 := { account with Password := password }
          let account2 := { account1 with UpdatedAt := { account1.UpdatedAt with Time := now } }
          match repo.Update s1 account2 with
          | (.panicked, s2) => (.panicked, s2)
          | (.returned (some err, _), s2) =>
            (.returned (none, some (switchErrAccountNotFoundOrErrServer err)), s2)
          | (.returned (none, account3), s2) =>
            (.returned (some (env.NewAccountResponse account3), none), s2)

/-- Go `accountService.Delete`. -/
def Delete {σ : Type} (repo : AccountRepository σ) (s : σ) (ctx : Context)
    (req : AccountDeleteRequest) : Option Error × σ :=
  if !middleware.IsMe ctx req.ID then (some .ErrUnauthorized, s)
  else
    match repo.Delete s req.ID with
    | (some err, s1) => (some (switchErrAccountNotFoundOrErrServer err), s1)
    | (none, s1) => (none, s1)

end accountService

/-! ## `commentHandler` -/

/-- Go `net/http` status codes used by the handlers. -/
def http.StatusOK : Nat := 200

/-- Go `http.StatusCreated`. -/
def http.StatusCreated : Nat := 201

/-- Go `http.StatusNoContent`. -/
def http.StatusNoContent : Nat := 204

/-- Go `http.StatusBadRequest`. -/
def http.StatusBadRequest : Nat := 400

/-- Go `http.StatusUnauthorized`. -/
def http.StatusUnauthorized : Nat := 401

/-- Go `http.StatusNotFound`. -/
def http.StatusNotFound : Nat := 404

/-- Go `http.StatusInternalServerError`. -/
def http.StatusInternalServerError : Nat := 500

/-- What a handler hands to the response writer: the arguments of its call to
`web.MarshalError`, to `web.MarshalPayload` (with a `*model.CommentResponse` or a
`[]*model.CommentResponse`) or to `w.WriteHeader`. -/
inductive Response where
  | MarshalError (status : Nat) (err : Error)
  | MarshalComment (status : Nat) (res : Option CommentResponse)
  | MarshalComments (status : Nat) (res : Option (List CommentResponse))
  | WriteHeader (status : Nat)
  deriving DecidableEq, Repr

/-- The status code of a response. -/
def Response.status : Response → Nat
  | .MarshalError status _ => status
  | .MarshalComment status _ => status
  | .MarshalComments status _ => status
  | .WriteHeader status => status

/-- Go `strconv.Atoi` on a 64-bit platform: an optional sign and decimal digits within
the range of `int`; anything else, the empty string included, is an error. -/
def strconv.Atoi (s : String) : Except Error Int :=
  let digits : List Char :=
    match s.data with
    | '-' :: ds => ds
    | '+' :: ds => ds
    | ds => ds
  if digits = [] ∨ ¬ digits.all Char.isDigit = true then
    .error (.infra ("strconv.Atoi: parsing " ++ s.quote ++ ": invalid syntax"))
  else if s.data.head? = some '-' then
    if decimalValue digits ≤ 2 ^ 63 then .ok (-(decimalValue digits : Int))
    else .error (.infra ("strconv.Atoi: parsing " ++ s.quote ++ ": value out of range"))
  else
    if decimalValue digits < 2 ^ 63 then .ok (decimalValue digits : Int)
    else .error (.infra ("strconv.Atoi: parsing " ++ s.quote ++ ": value out of range"))

/-- Go `validation.Struct`, given the fields tagged `validate:"required"` in declaration
order, each with whether it holds its zero value: the error of the first field that
fails, or nil. -/
def validation.Struct (required : List (String × Bool)) : Option Error :=
  match required.find? (fun f => f.2) with
  | some f => some (.ErrFieldValidation f.1)
  | none => none

/-- Go `commentHandler.Create`.  `decoded` is the outcome of decoding the JSON body into
a `model.CommentCreateRequest`, `none` when decoding fails. -/
def commentHandler.Create (w : World Comment) (ctx : Context) (now : Nat)
    (decoded : Option CommentCreateRequest) : Run Response × World Comment :=
  match decoded with
  | none => (.returned (.MarshalError http.StatusBadRequest .ErrRequestBody), w)
  | some req =>
    match validation.Struct
        [("Body", decide (req.Body = "")), ("PostID", decide (req.PostID = 0))] with
    | some err => (.returned (.MarshalError http.StatusBadRequest err), w)
    | none =>
      match commentService.Create w ctx now req with
      | (.panicked, w1) => (.panicked, w1)
      | (.returned (_, some err), w1) =>
        match err with
        | .ErrUnauthorized => (.returned (.MarshalError http.StatusUnauthorized err), w1)
        | _ => (.returned (.MarshalError http.StatusInternalServerError err), w1)
      | (.returned (res, none), w1) =>
        (.returned (.MarshalComment http.StatusCreated res), w1)

/-- Go `commentHandler.Get`.  `comment_id` is the outcome of
`web.GetUrlPathInt64(r, "comment_id")`. -/
def commentHandler.Get (w : World Comment) (comment_id : Except Error Int) :
    Run Response × World Comment :=
  match comment_id with
  | .error err => (.returned (.MarshalError http.StatusBadRequest err), w)
  | .ok id =>
    match commentService.Get w { ID := id } with
    | (.panicked, w1) => (.panicked, w1)
    | (.returned (_, some err), w1) =>
      match err with
      | .ErrCommentNotFound => (.returned (.MarshalError http.StatusNotFound err), w1)
      | _ => (.returned (.MarshalError http.StatusInternalServerError err), w1)
    | (.returned (res, none), w1) => (.returned (.MarshalComment http.StatusOK res), w1)

/-- Go `commentHandler.Update`.  `comment_id` is the outcome of
`web.GetUrlPathInt64(r, "comment_id")`, `decoded` the outcome of decoding the JSON body:
the `body` field, `none` when decoding fails. -/
def commentHandler.Update (w : World Comment) (ctx : Context) (now : Nat)
    (comment_id : Except Error Int) (decoded : Option String) :
    Run Response × World Comment :=
  match comment_id with
  | .error err => (.returned (.MarshalError http.StatusBadRequest err), w)
  | .ok id =>
    match decoded with
    | none => (.returned (.MarshalError http.StatusBadRequest .ErrRequestBody), w)
    | some body =>
      let req : CommentUpdateRequest := { ID := id, Body := body }
      match validation.Struct [("Body", decide (req.Body = ""))] with
      | some err => (.returned (.MarshalError http.StatusBadRequest err), w)
      | none =>
        match commentService.Update w ctx now req with
        | (.panicked, w1) => (.panicked, w1)
        | (.returned (_, some err), w1) =>
          match err with
          | .ErrUnauthorized => (.returned (.MarshalError http.StatusUnauthorized err), w1)
          | .ErrCommentNotFound => (.returned (.MarshalError http.StatusNotFound err), w1)
          | _ => (.returned (.MarshalError http.StatusInternalServerError err), w1)
        | (.returned (res, none), w1) => (.returned (.MarshalComment http.StatusOK res), w1)

/-- Go `commentHandler.Delete`.  `comment_id` is the outcome of
`web.GetUrlPathInt64(r, "comment_id")`. -/
def commentHandler.Delete (w : World Comment) (ctx : Context)
    (comment_id : Except Error Int) : Run Response × World Comment :=
  match comment_id with
  | .error err => (.returned (.MarshalError http.StatusBadRequest err), w)
  | .ok id =>
    match commentService.Delete w ctx { ID := id } with
    | (.panicked, w1) => (.panicked, w1)
    | (.returned (some err), w1) =>
      match err with
      | .ErrUnauthorized => (.returned (.MarshalError http.StatusUnauthorized err), w1)
      | .ErrCommentNotFound => (.returned (.MarshalError http.StatusNotFound err), w1)
      | _ => (.returned (.MarshalError http.StatusInternalServerError err), w1)
    | (.returned none, w1) => (.returned (.WriteHeader http.StatusNoContent), w1)

/-- Go `commentHandler.List`.  `pagination` is the outcome of `web.GetPagination(r)`,
`post_id` the value of `r.URL.Query().Get("post_id")`, the empty string when the request
has no such parameter.  The `fmt.Println` of the parsed value is left out. -/
def commentHandler.List (w : World Comment) (pagination : Except Error (Int × Int))
    (post_id : String) : Run Response × World Comment :=
  match pagination with
  | .error err => (.returned (.MarshalError http.StatusBadRequest err), w)
  | .ok (limit, offset) =>
    match strconv.Atoi post_id with
    | .error err => (.returned (.MarshalError http.StatusBadRequest err), w)
    | .ok postID =>
      match commentService.List w { Limit := limit, Offset := offset, PostID := postID } with
      | ((_, some err), w1) =>
        (.returned (.MarshalError http.StatusInternalServerError err), w1)
      | ((res, none), w1) => (.returned (.MarshalComments http.StatusOK res), w1)

/-! ## Concrete worlds -/

/-- A stored comment of account 7 on post 3. -/
def sampleComment : Comment :=
  { ID := 1, Body := "first", CreatedAt := 10, UpdatedAt := { Time := 0, Valid := false },
    AccountID := 7, PostID := 3 }

/-- A stored post of account 7. -/
def samplePost : Post :=
  { ID := 1, Title := "A", Body := "B", CreatedAt := 10,
    UpdatedAt := { Time := 0, Valid := false }, AccountID := 7 }

/-- One comment in the table, nothing in the cache, no fault scripted. -/
def coldComments : World Comment :=
  { rows := [sampleComment], nextID := 2, cache := [], faults := [], trace := [] }

/-- One comment in the table and its snapshot in the cache, no fault scripted. -/
def warmComments : World Comment :=
  { rows := [sampleComment], nextID := 2, cache := [("comment_1", sampleComment)],
    faults := [], trace := [] }

/-- One post in the table, nothing in the cache, no fault scripted. -/
def coldPosts : World Post :=
  { rows := [samplePost], nextID := 2, cache := [], faults := [], trace := [] }

/-- One post in the table and its snapshot in the cache, no fault scripted. -/
def warmPosts : World Post :=
  { rows := [samplePost], nextID := 2, cache := [("post_1", samplePost)],
    faults := [], trace := [] }

/-- One comment in the table and an older snapshot of it in the cache. -/
def staleComments : World Comment :=
  { rows := [sampleComment], nextID := 2,
    cache := [("comment_1", { sampleComment with Body := "zeroth" })],
    faults := [], trace := [] }

/-- One post in the table and an older snapshot of it in the cache. -/
def stalePosts : World Post :=
  { rows := [samplePost], nextID := 2,
    cache := [("post_1", { samplePost with Title := "older" })],
    faults := [], trace := [] }

/-- No comment, no cache entry, no fault scripted. -/
def emptyComments : World Comment :=
  { rows := [], nextID := 1, cache := [], faults := [], trace := [] }

/-- No post, no cache entry, no fault scripted. -/
def emptyPosts : World Post :=
  { rows := [], nextID := 1, cache := [], faults := [], trace := [] }

/-- The warm comment world with the cache unreachable at the second call. -/
def cacheDownComments : World Comment :=
  { warmComments with faults := [none, some "redis: connection refused"] }

/-- The warm post world with the cache unreachable at the second call. -/
def cacheDownPosts : World Post :=
  { warmPosts with faults := [none, some "redis: connection refused"] }

/-- The warm comment world with the store unreachable at the first call. -/
def storeDownComments : World Comment :=
  { warmComments with faults := [some "mysql: connection refused"] }

/-- The warm post world with the store unreachable at the first call. -/
def storeDownPosts : World Post :=
  { warmPosts with faults := [some "mysql: connection refused"] }

/-- The empty comment world with the cache unreachable at the third call, the cache read
of the re-read in `Create`. -/
def rereadDownComments : World Comment :=
  { emptyComments with faults := [none, none, some "redis: connection refused"] }

/-- The empty comment world with the cache unreachable at the fifth call, the cache write
of the re-read in `Create`. -/
def cacheSetDownComments : World Comment :=
  { emptyComments with
    faults := [none, none, none, none, some "redis: connection refused"] }

/-- An account repository over a call counter: every operation counts itself and
fails. -/
def countingAccounts : AccountRepository Nat :=
  { GetByEmail := fun n _ => ((none, some (.infra "unused")), n + 1)
    Get := fun n _ => ((none, some (.infra "unused")), n + 1)
    Create := fun n a => (.returned (some (.infra "unused"), a), n + 1)
    List := fun n _ _ _ => ((none, some (.infra "unused")), n + 1)
    Update := fun n a => (.returned (some (.infra "unused"), a), n + 1)
    Delete := fun n _ => (some (.infra "unused"), n + 1) }

/-- An environment that answers with the account itself and hashes by identity. -/
def plainEnv : AccountEnv Account :=
  { GenerateFromPassword := fun p => .ok p
    CompareHashAndPassword := fun hash p => if hash = p then none else some (.infra "mismatch")
    NewAccountResponse := fun a => a
    NewAccountListResponse := fun l => l }

/-- State of the in-memory account repository: the accounts and the operations invoked
so far. -/
structure AccountStore where
  rows : List Account
  calls : List String
  deriving DecidableEq, Repr

/-- An in-memory account repository that records the operations invoked on it. -/
def memoryAccounts : AccountRepository AccountStore :=
  { GetByEmail := fun s email =>
      match s.rows.find? (fun a => decide (a.Email = email)) with
      | some a => ((some a, none), { s with calls := s.calls ++ ["GetByEmail"] })
      | none => ((none, some .ErrNoRows), { s with calls := s.calls ++ ["GetByEmail"] })
    Get := fun s id =>
      match s.rows.find? (fun a => decide (a.ID = id)) with
      | some a => ((some a, none), { s with calls := s.calls ++ ["Get"] })
      | none => ((none, some .ErrNoRows), { s with calls := s.calls ++ ["Get"] })
    Create := fun s a =>
      (.returned (none, { a with ID := s.rows.length + 1 }),
        { rows := s.rows ++ [{ a with ID := s.rows.length + 1 }],
          calls := s.calls ++ ["Create"] })
    List := fun s _ _ _ => ((some s.rows, none), { s with calls := s.calls ++ ["List"] })
    Update := fun s a =>
      (.returned (none, a),
        { rows := s.rows.map (fun r => if r.ID = a.ID then a else r),
          calls := s.calls ++ ["Update"] })
    Delete := fun s id =>
      (none, { rows := s.rows.filter (fun r => decide (r.ID ≠ id)),
               calls := s.calls ++ ["Delete"] }) }

/-- Account 1. -/
def alice : Account :=
  { ID := 1, Name := "alice", Email := "alice@example.org", Password := "a",
    CreatedAt := 10, UpdatedAt := { Time := 0, Valid := false } }

/-- Account 2. -/
def bob : Account :=
  { ID := 2, Name := "bob", Email := "bob@example.org", Password := "b",
    CreatedAt := 11, UpdatedAt := { Time := 0, Valid := false } }

/-- The in-memory repository holding accounts 1 and 2, nothing invoked yet. -/
def twoAccounts : AccountStore :=
  { rows := [alice, bob], calls := [] }

/-! ## The collaborators, call by call -/

theorem call_eq {E : Type} (w : World E) (ev : Event) :
    w.call ev = ((w.faultAt 0).map Error.infra, w.step ev) := by
  obtain ⟨rows, nextID, cache, faults, trace⟩ := w
  cases faults <;> simp [World.call, World.faultAt, World.step]

@[simp] theorem step_rows {E : Type} (w : World E) (ev : Event) :
    (w.step ev).rows = w.rows := rfl

@[simp] theorem step_cache {E : Type} (w : World E) (ev : Event) :
    (w.step ev).cache = w.cache := rfl

@[simp] theorem step_nextID {E : Type} (w : World E) (ev : Event) :
    (w.step ev).nextID = w.nextID := rfl

@[simp] theorem step_trace {E : Type} (w : World E) (ev : Event) :
    (w.step ev).trace = w.trace ++ [ev] := rfl

@[simp] theorem step_faultAt {E : Type} (w : World E) (ev : Event) (k : Nat) :
    (w.step ev).faultAt k = w.faultAt (k + 1) := by
  obtain ⟨rows, nextID, cache, faults, trace⟩ := w
  cases faults <;> simp [World.faultAt, World.step]

theorem cacheLookup_erase_self {E : Type} (key : String) (c : List (String × E)) :
    cacheLookup key (cacheErase key c) = none := by
  induction c with
  | nil => rfl
  | cons kv rest ih =>
    obtain ⟨k, v⟩ := kv
    by_cases h : k = key
    · simp [cacheErase, List.filter_cons, h] at ih ⊢; exact ih
    · simp [cacheErase, List.filter_cons, h, cacheLookup] at ih ⊢; exact ih

theorem cacheLookup_erase_other {E : Type} (key k : String) (c : List (String × E))
    (hk : k ≠ key) : cacheLookup k (cacheErase key c) = cacheLookup k c := by
  induction c with
  | nil => rfl
  | cons kv rest ih =>
    obtain ⟨k', v⟩ := kv
    by_cases h : k' = key
    · have hne : k' ≠ k := fun h' => hk (h' ▸ h)
      simp [cacheErase, List.filter_cons, h, cacheLookup] at ih ⊢
      rw [ih]; simp [h ▸ hne, Ne.symm hk]
    · simp [cacheErase, List.filter_cons, h, cacheLookup] at ih ⊢
      rw [ih]

theorem cacheErase_absent {E : Type} (key : String) (c : List (String × E))
    (h : cacheLookup key c = none) : cacheErase key c = c := by
  induction c with
  | nil => rfl
  | cons kv rest ih =>
    obtain ⟨k, v⟩ := kv
    by_cases hk : k = key
    · simp [cacheLookup, hk] at h
    · simp [cacheLookup, hk] at h
      simp [cacheErase, List.filter_cons, hk] at ih ⊢
      exact ih h

theorem cacheGet_eq {E : Type} (w : World E) (key : String) :
    cacheGet w key =
      (match w.faultAt 0 with
       | some m => .error (.infra m)
       | none =>
         match cacheLookup key w.cache with
         | none => .error .ErrCacheMiss
         | some v => .ok v,
       w.step (.cacheGet key)) := by
  simp only [cacheGet, call_eq]
  cases w.faultAt 0 with
  | some m => rfl
  | none =>
    simp only [Option.map_none', step_cache]
    cases cacheLookup key w.cache <;> rfl

theorem cacheSet_eq {E : Type} (w : World E) (key : String) (v : E) :
    cacheSet w key v =
      ((w.faultAt 0).map Error.infra,
       match w.faultAt 0 with
       | some _ => w.step (.cacheSet key)
       | none => { w.step (.cacheSet key) with cache := (key, v) :: cacheErase key w.cache }) := by
  simp only [cacheSet, call_eq]
  cases w.faultAt 0 <;> rfl

theorem cacheDelete_eq {E : Type} (w : World E) (key : String) :
    cacheDelete w key =
      match w.faultAt 0 with
      | some m => (some (.infra m), w.step (.cacheDelete key))
      | none =>
        (match cacheLookup key w.cache with
         | none => some .ErrCacheMiss
         | some _ => none,
         { w.step (.cacheDelete key) with cache := cacheErase key w.cache }) := by
  simp only [cacheDelete, call_eq]
  cases w.faultAt 0 with
  | some m => rfl
  | none =>
    simp only [Option.map_none', step_cache]
    cases h : cacheLookup key w.cache with
    | none => simp [cacheErase_absent key w.cache h, World.step]
    | some v => rfl

@[simp] theorem invalidated_rows {E : Type} (w : World E) (rows : List E) (ev : Event)
    (key : String) : (w.invalidated rows ev key).rows = rows := rfl

@[simp] theorem invalidated_cache {E : Type} (w : World E) (rows : List E) (ev : Event)
    (key : String) : (w.invalidated rows ev key).cache = cacheErase key w.cache := rfl

@[simp] theorem invalidated_trace {E : Type} (w : World E) (rows : List E) (ev : Event)
    (key : String) : (w.invalidated rows ev key).trace = w.trace ++ [ev, .cacheDelete key] := rfl

@[simp] theorem invalidated_faultAt {E : Type} (w : World E) (rows : List E) (ev : Event)
    (key : String) (k : Nat) : (w.invalidated rows ev key).faultAt k = w.faultAt (k + 2) := by
  obtain ⟨rows0, nextID, cache, faults, trace⟩ := w
  rcases faults with _ | ⟨f, _ | ⟨g, fs⟩⟩ <;> simp [World.faultAt, World.invalidated]

@[simp] theorem inserted_rows {E : Type} (w : World E) (row : E) :
    (w.inserted row).rows = w.rows ++ [row] := rfl

@[simp] theorem inserted_cache {E : Type} (w : World E) (row : E) :
    (w.inserted row).cache = w.cache := rfl

@[simp] theorem inserted_trace {E : Type} (w : World E) (row : E) :
    (w.inserted row).trace = w.trace ++ [.sqlInsert, .sqlLastInsertId] := rfl

@[simp] theorem inserted_faultAt {E : Type} (w : World E) (row : E) (k : Nat) :
    (w.inserted row).faultAt k = w.faultAt (k + 2) := by
  obtain ⟨rows0, nextID, cache, faults, trace⟩ := w
  rcases faults with _ | ⟨f, _ | ⟨g, fs⟩⟩ <;> simp [World.faultAt, World.inserted]

@[simp] theorem withCache_rows {E : Type} (w : World E) (c : List (String × E)) :
    (w.withCache c).rows = w.rows := rfl

@[simp] theorem withCache_cache {E : Type} (w : World E) (c : List (String × E)) :
    (w.withCache c).cache = c := rfl

@[simp] theorem withCache_nextID {E : Type} (w : World E) (c : List (String × E)) :
    (w.withCache c).nextID = w.nextID := rfl

@[simp] theorem withCache_trace {E : Type} (w : World E) (c : List (String × E)) :
    (w.withCache c).trace = w.trace := rfl

@[simp] theorem withCache_faultAt {E : Type} (w : World E) (c : List (String × E)) (k : Nat) :
    (w.withCache c).faultAt k = w.faultAt k := rfl

/-- The scan loop reads the fault script and writes the trace, nothing else: with another
cache it gives the same rows and leaves that cache. -/
theorem scanRows_withCache {E : Type} (w : World E) (c : List (String × E)) (rs : List E) :
    scanRows (w.withCache c) rs = ((scanRows w rs).1, (scanRows w rs).2.withCache c) := by
  induction rs generalizing w with
  | nil => rfl
  | cons r rest ih =>
    have hstep : (w.withCache c).step .sqlScan = (w.step .sqlScan).withCache c := rfl
    simp only [scanRows, call_eq, withCache_faultAt, hstep]
    cases w.faultAt 0 with
    | some m => rfl
    | none =>
      simp only [Option.map_none', ih]
      generalize scanRows (w.step .sqlScan) rest = g
      obtain ⟨_ | rs', w2⟩ := g <;> rfl

/-- The scan loop leaves table and cache as they are and adds only scans to the trace. -/
theorem scanRows_frame {E : Type} (w : World E) (rs : List E) :
    (scanRows w rs).2.rows = w.rows ∧ (scanRows w rs).2.cache = w.cache ∧
      ∃ n, (scanRows w rs).2.trace = w.trace ++ List.replicate n Event.sqlScan := by
  induction rs generalizing w with
  | nil => exact ⟨rfl, rfl, 0, by simp [scanRows]⟩
  | cons r rest ih =>
    simp only [scanRows, call_eq]
    cases w.faultAt 0 with
    | some m => exact ⟨rfl, rfl, 1, by simp⟩
    | none =>
      obtain ⟨h1, h2, n, h3⟩ := ih (w.step .sqlScan)
      simp only [Option.map_none']
      revert h1 h2 h3
      generalize scanRows (w.step .sqlScan) rest = g
      obtain ⟨_ | rs', w2⟩ := g <;> intro h1 h2 h3 <;>
        exact ⟨h1, h2, n + 1, by simp at h3; simp [h3, List.replicate_succ]⟩

/-! ## Cache keys -/

/-- Appending one digit multiplies by ten and adds it. -/
theorem decimalValue_append_single (cs : List Char) (c : Char) :
    decimalValue (cs ++ [c]) = 10 * decimalValue cs + (c.toNat - 48) := by
  simp [decimalValue, List.foldl_append]

/-- The ten decimal digit characters carry their value. -/
theorem digitChar_value (d : Nat) (h : d < 10) : (Nat.digitChar d).toNat - 48 = d := by
  interval_cases d <;> rfl

/-- The ten decimal digit characters are digits. -/
theorem digitChar_isDigit (d : Nat) (h : d < 10) : (Nat.digitChar d).isDigit = true := by
  interval_cases d <;> rfl

/-- The accumulator of `Nat.toDigitsCore` is a suffix of its result. -/
theorem toDigitsCore_append (fuel n : Nat) (ds : List Char) :
    Nat.toDigitsCore 10 fuel n ds = Nat.toDigitsCore 10 fuel n [] ++ ds := by
  induction fuel generalizing n ds with
  | zero => simp [Nat.toDigitsCore]
  | succ f ih =>
    simp only [Nat.toDigitsCore]
    split
    · simp
    · rw [ih (n / 10) (Nat.digitChar (n % 10) :: ds), ih (n / 10) [Nat.digitChar (n % 10)]]
      simp

/-- The decimal digits of `n` stand for `n`. -/
theorem decimalValue_toDigitsCore (fuel n : Nat) (h : n < fuel) :
    decimalValue (Nat.toDigitsCore 10 fuel n []) = n := by
  induction fuel generalizing n with
  | zero => omega
  | succ f ih =>
    simp only [Nat.toDigitsCore]
    split
    · rename_i h0
      have hn : n < 10 := by omega
      simp [decimalValue, digitChar_value (n % 10) (Nat.mod_lt _ (by decide))]
      omega
    · rename_i h0
      rw [toDigitsCore_append, decimalValue_append_single, ih (n / 10) (by omega),
        digitChar_value (n % 10) (Nat.mod_lt _ (by decide))]
      omega

/-- `Nat.toDigitsCore` adds digit characters only. -/
theorem toDigitsCore_isDigit (fuel n : Nat) (ds : List Char) (c : Char)
    (hc : c ∈ Nat.toDigitsCore 10 fuel n ds) : c ∈ ds ∨ c.isDigit = true := by
  induction fuel generalizing n ds with
  | zero => left; simpa [Nat.toDigitsCore] using hc
  | succ f ih =>
    simp only [Nat.toDigitsCore] at hc
    split at hc
    · rcases List.mem_cons.1 hc with rfl | h
      · right; exact digitChar_isDigit _ (Nat.mod_lt _ (by decide))
      · left; exact h
    · rcases ih _ _ hc with h | h
      · rcases List.mem_cons.1 h with rfl | h
        · right; exact digitChar_isDigit _ (Nat.mod_lt _ (by decide))
        · left; exact h
      · right; exact h

/-- Two naturals with the same decimal rendering are equal. -/
theorem Nat_repr_injective (a b : Nat) (h : Nat.repr a = Nat.repr b) : a = b := by
  have hl : Nat.toDigits 10 a = Nat.toDigits 10 b := congrArg String.data h
  have := congrArg decimalValue hl
  simpa [Nat.toDigits, decimalValue_toDigitsCore] using this

/-- The decimal rendering of a natural has no minus sign. -/
theorem Nat_repr_no_minus (a : Nat) : '-' ∉ (Nat.repr a).data := by
  intro h
  have h' : '-' ∈ Nat.toDigitsCore 10 (a + 1) a [] := by
    simpa [Nat.repr, Nat.toDigits, List.asString] using h
  rcases toDigitsCore_isDigit _ _ _ _ h' with h1 | h1
  · simp at h1
  · exact absurd h1 (by decide)

/-- Two integers with the same `%d` rendering are equal. -/
theorem Int_toString_injective (a b : Int) (h : toString a = toString b) : a = b := by
  cases a with
  | ofNat m =>
    cases b with
    | ofNat n =>
      have : Nat.repr m = Nat.repr n := h
      rw [Nat_repr_injective m n this]
    | negSucc n =>
      exfalso
      have h1 : Nat.repr m = "-" ++ Nat.repr (n + 1) := h
      have h2 : '-' ∈ (Nat.repr m).data := by rw [h1]; simp
      exact Nat_repr_no_minus m h2
  | negSucc m =>
    cases b with
    | ofNat n =>
      exfalso
      have h1 : "-" ++ Nat.repr (m + 1) = Nat.repr n := h
      have h2 : '-' ∈ (Nat.repr n).data := by rw [← h1]; simp
      exact Nat_repr_no_minus n h2
    | negSucc n =>
      have h1 : "-" ++ Nat.repr (m + 1) = "-" ++ Nat.repr (n + 1) := h
      have h2 : Nat.repr (m + 1) = Nat.repr (n + 1) := by
        have := congrArg String.data h1
        simp only [String.data_append, List.append_cancel_left_eq] at this
        exact String.ext this
      have := Nat_repr_injective _ _ h2
      simp at this
      rw [this]

/-- A fixed prefix before the `%d` rendering keeps it injective. -/
theorem prefixed_toString_injective (pre : String) (a b : Int)
    (h : pre ++ toString a = pre ++ toString b) : a = b := by
  apply Int_toString_injective
  have := congrArg String.data h
  simp only [String.data_append, List.append_cancel_left_eq] at this
  exact String.ext this

/-- Two comment identifiers with the same cache key are equal. -/
theorem commentKey_injective (a b : Int) (h : commentKey a = commentKey b) : a = b :=
  prefixed_toString_injective "comment_" a b h

/-- Two post identifiers with the same cache key are equal. -/
theorem postKey_injective (a b : Int) (h : postKey a = postKey b) : a = b :=
  prefixed_toString_injective "post_" a b h

/-! ## `commentRepository`, call by call -/

/-- The outcome of `Get`, call by call. -/
theorem commentRepo_Get_eq (w : World Comment) (id : Int) :
    commentRepository.Get w id =
      match w.faultAt 0 with
      | some m => ((none, some (.infra m)), w.step (.cacheGet (commentKey id)))
      | none =>
        match cacheLookup (commentKey id) w.cache with
        | some c => ((some c, none), w.step (.cacheGet (commentKey id)))
        | none =>
          match w.faultAt 1 with
          | some m =>
            ((none, some (.infra m)),
              (w.step (.cacheGet (commentKey id))).step (.sqlSelect id))
          | none =>
            match commentRepository.selectRow w.rows id with
            | none =>
              ((none, some .ErrNoRows),
                (w.step (.cacheGet (commentKey id))).step (.sqlSelect id))
            | some c =>
              match w.faultAt 2 with
              | some m =>
                ((some c, some (.infra m)),
                  ((w.step (.cacheGet (commentKey id))).step (.sqlSelect id)).step
                    (.cacheSet (commentKey id)))
              | none =>
                ((some c, none),
                  (((w.step (.cacheGet (commentKey id))).step (.sqlSelect id)).step
                      (.cacheSet (commentKey id))).withCache
                    ((commentKey id, c) :: cacheErase (commentKey id) w.cache)) := by
  simp only [commentRepository.Get, cacheGet_eq, cacheSet_eq, call_eq]
  cases w.faultAt 0 with
  | some m => simp
  | none =>
    cases cacheLookup (commentKey id) w.cache with
    | some c => simp
    | none =>
      simp
      cases w.faultAt 1 with
      | some m => simp
      | none =>
        simp
        cases commentRepository.selectRow w.rows id with
        | none => simp
        | some c =>
          simp
          cases w.faultAt 2 <;> simp [World.withCache, World.step]

/-- The outcome of `Update`, call by call, down to the canonical re-read. -/
theorem commentRepo_Update_eq (w : World Comment) (e : Comment) :
    commentRepository.Update w e =
      match w.faultAt 0 with
      | some m => (.returned (some (.infra m), e), w.step (.sqlUpdate e.ID))
      | none =>
        match w.faultAt 1 with
        | some m =>
          (.returned (some (.infra m), e),
            ({ w.step (.sqlUpdate e.ID) with rows := commentRepository.updatedRows w.rows e }).step
              (.cacheDelete (commentKey e.ID)))
        | none =>
          match commentRepository.Get
              (w.invalidated (commentRepository.updatedRows w.rows e) (.sqlUpdate e.ID)
                (commentKey e.ID)) e.ID with
          | ((none, _), w4) => (.panicked, w4)
          | ((some temp, err), w4) => (.returned (err, temp), w4) := by
  obtain ⟨rows0, nextID, cache, faults, trace⟩ := w
  have he : cacheLookup (commentKey e.ID) cache = none →
      List.filter (fun kv => !decide (kv.1 = commentKey e.ID)) cache = cache := fun hc => by
    simpa [cacheErase] using cacheErase_absent (commentKey e.ID) cache hc
  rcases faults with _ | ⟨_ | m0, _ | ⟨_ | m1, fs⟩⟩ <;>
    cases hc : cacheLookup (commentKey e.ID) cache <;>
    simp [commentRepository.Update, cacheDelete, World.call, World.faultAt, World.step,
      World.invalidated, cacheErase, hc] <;>
    first
    | rfl
    | (rw [he (by assumption)])

/-- The outcome of `Delete`, call by call. -/
theorem commentRepo_Delete_eq (w : World Comment) (id : Int) :
    commentRepository.Delete w id =
      match w.faultAt 0 with
      | some m => (some (.infra m), w.step (.sqlDelete id))
      | none =>
        match w.faultAt 1 with
        | some m =>
          (some (.infra m),
            ({ w.step (.sqlDelete id) with rows := commentRepository.deletedRows w.rows id }).step
              (.cacheDelete (commentKey id)))
        | none =>
          (none,
            w.invalidated (commentRepository.deletedRows w.rows id) (.sqlDelete id)
              (commentKey id)) := by
  obtain ⟨rows0, nextID, cache, faults, trace⟩ := w
  have he : cacheLookup (commentKey id) cache = none →
      List.filter (fun kv => !decide (kv.1 = commentKey id)) cache = cache := fun hc => by
    simpa [cacheErase] using cacheErase_absent (commentKey id) cache hc
  rcases faults with _ | ⟨_ | m0, _ | ⟨_ | m1, fs⟩⟩ <;>
    cases hc : cacheLookup (commentKey id) cache <;>
    simp [commentRepository.Delete, cacheDelete, World.call, World.faultAt, World.step,
      World.invalidated, cacheErase, hc] <;>
    first
    | rfl
    | (rw [he (by assumption)])

/-- The outcome of `Create`, call by call, down to the canonical re-read. -/
theorem commentRepo_Create_eq (w : World Comment) (e : Comment) :
    commentRepository.Create w e =
      match w.faultAt 0 with
      | some m => (.returned (some (.infra m), e), w.step .sqlInsert)
      | none =>
        match w.faultAt 1 with
        | some m =>
          (.returned (some (.infra m), { e with ID := 0 }),
            w.inserted (commentRepository.insertedRow w.nextID e))
        | none =>
          match commentRepository.Get (w.inserted (commentRepository.insertedRow w.nextID e))
              w.nextID with
          | ((none, _), w4) => (.panicked, w4)
          | ((some temp, _), w4) => (.returned (none, temp), w4) := by
  obtain ⟨rows0, nextID, cache, faults, trace⟩ := w
  rcases faults with _ | ⟨_ | m0, _ | ⟨_ | m1, fs⟩⟩ <;>
    simp [commentRepository.Create, World.call, World.faultAt, World.step, World.inserted]

theorem commentRepo_selectRow_ID {rows : List Comment} {id : Int} {r : Comment}
    (h : commentRepository.selectRow rows id = some r) : r.ID = id := by
  have := List.find?_some h
  simpa using this

theorem commentRepo_selectRow_updatedRows (rows : List Comment) (e : Comment) :
    commentRepository.selectRow (commentRepository.updatedRows rows e) e.ID =
      (commentRepository.selectRow rows e.ID).map (fun r =>
        { r with Body := e.Body,
                 UpdatedAt := { Time := e.UpdatedAt.Time, Valid := true } }) := by
  induction rows with
  | nil => rfl
  | cons r rest ih =>
    by_cases h : r.ID = e.ID
    · simp [commentRepository.selectRow, commentRepository.updatedRows, h]
    · simp only [commentRepository.selectRow, commentRepository.updatedRows] at ih
      simp [commentRepository.selectRow, commentRepository.updatedRows, h, ih]

theorem commentRepo_selectRow_deletedRows (rows : List Comment) (id : Int) :
    commentRepository.selectRow (commentRepository.deletedRows rows id) id = none := by
  simp [commentRepository.selectRow, commentRepository.deletedRows, List.find?_eq_none]

/-- `Get` never touches the table. -/
theorem commentRepo_Get_rows (w : World Comment) (id : Int) :
    (commentRepository.Get w id).2.rows = w.rows := by
  rw [commentRepo_Get_eq]
  cases w.faultAt 0 <;> cases cacheLookup (commentKey id) w.cache <;> cases w.faultAt 1 <;>
    cases commentRepository.selectRow w.rows id <;> cases w.faultAt 2 <;> rfl

/-- `Get` never returns a nil entity without an error. -/
theorem commentRepo_Get_not_nil_nil (w : World Comment) (id : Int) :
    (commentRepository.Get w id).1 ≠ (none, none) := by
  rw [commentRepo_Get_eq]
  cases w.faultAt 0 <;> cases cacheLookup (commentKey id) w.cache <;> cases w.faultAt 1 <;>
    cases commentRepository.selectRow w.rows id <;> cases w.faultAt 2 <;> simp

/-- `Get` leaves the cache entries under every other key as they were. -/
theorem commentRepo_Get_cache_other (w : World Comment) (id : Int) (k : String)
    (hk : k ≠ commentKey id) :
    cacheLookup k (commentRepository.Get w id).2.cache = cacheLookup k w.cache := by
  rw [commentRepo_Get_eq]
  cases w.faultAt 0 <;> cases cacheLookup (commentKey id) w.cache <;> cases w.faultAt 1 <;>
    cases commentRepository.selectRow w.rows id <;> cases w.faultAt 2 <;>
    simp [cacheLookup, Ne.symm hk, cacheLookup_erase_other _ _ _ hk]

/-- A `Get` served from the cache: one cache read and nothing else. -/
theorem commentRepo_Get_hit (w : World Comment) (id : Int) (c : Comment)
    (hf : w.faultAt 0 = none) (hc : cacheLookup (commentKey id) w.cache = some c) :
    commentRepository.Get w id = ((some c, none), w.step (.cacheGet (commentKey id))) := by
  rw [commentRepo_Get_eq]; simp [hf, hc]

/-- A successful `Get` leaves the entity it returned in the cache. -/
theorem commentRepo_Get_ok_cached (w : World Comment) (id : Int) (c : Comment)
    (h : (commentRepository.Get w id).1 = (some c, none)) :
    cacheLookup (commentKey id) (commentRepository.Get w id).2.cache = some c := by
  revert h
  rw [commentRepo_Get_eq]
  cases w.faultAt 0 <;> cases hc : cacheLookup (commentKey id) w.cache <;>
    cases w.faultAt 1 <;> cases commentRepository.selectRow w.rows id <;>
    cases w.faultAt 2 <;> simp [cacheLookup, hc]

/-- A `Get` on a cold cache with the row in the table: three calls, the row returned and
cached. -/
theorem commentRepo_Get_cold (w : World Comment) (id : Int) (r : Comment)
    (hr : commentRepository.selectRow w.rows id = some r)
    (hc : cacheLookup (commentKey id) w.cache = none)
    (h0 : w.faultAt 0 = none) (h1 : w.faultAt 1 = none) (h2 : w.faultAt 2 = none) :
    commentRepository.Get w id =
      ((some r, none),
        (((w.step (.cacheGet (commentKey id))).step (.sqlSelect id)).step
            (.cacheSet (commentKey id))).withCache
          ((commentKey id, r) :: cacheErase (commentKey id) w.cache)) := by
  rw [commentRepo_Get_eq]; simp [hr, hc, h0, h1, h2]

/-- A `Get` with neither a cache entry nor a row: two calls and `sql.ErrNoRows`. -/
theorem commentRepo_Get_absent (w : World Comment) (id : Int)
    (hr : commentRepository.selectRow w.rows id = none)
    (hc : cacheLookup (commentKey id) w.cache = none)
    (h0 : w.faultAt 0 = none) (h1 : w.faultAt 1 = none) :
    commentRepository.Get w id =
      ((none, some .ErrNoRows),
        (w.step (.cacheGet (commentKey id))).step (.sqlSelect id)) := by
  rw [commentRepo_Get_eq]; simp [hr, hc, h0, h1]

/-- With neither a cache entry nor a row, `Get` returns no entity, whatever the faults. -/
theorem commentRepo_Get_absent_nil (w : World Comment) (id : Int)
    (hr : commentRepository.selectRow w.rows id = none)
    (hc : cacheLookup (commentKey id) w.cache = none) :
    (commentRepository.Get w id).1.1 = none := by
  rw [commentRepo_Get_eq]
  cases w.faultAt 0 <;> cases w.faultAt 1 <;> simp [hr, hc]

/-- A successful `Update` leaves the row it wrote in the table and in the cache. -/
theorem commentRepo_update_ok (w : World Comment) (e e' : Comment)
    (h : (commentRepository.Update w e).1 = .returned (none, e')) :
    cacheLookup (commentKey e.ID) (commentRepository.Update w e).2.cache = some e' ∧
      commentRepository.selectRow (commentRepository.Update w e).2.rows e.ID = some e' ∧
      ∃ r, commentRepository.selectRow w.rows e.ID = some r ∧
        e' = { r with Body := e.Body,
                      UpdatedAt := { Time := e.UpdatedAt.Time, Valid := true } } := by
  revert h
  rw [commentRepo_Update_eq]
  cases h0 : w.faultAt 0 with
  | some m => simp
  | none =>
    cases h1 : w.faultAt 1 with
    | some m => simp
    | none =>
      simp only []
      rw [commentRepo_Get_eq]
      simp only [invalidated_faultAt, invalidated_cache, invalidated_rows,
        cacheLookup_erase_self, commentRepo_selectRow_updatedRows]
      cases h2 : w.faultAt 2 with
      | some m => simp
      | none =>
        cases h3 : w.faultAt 3 with
        | some m => simp
        | none =>
          cases hr : commentRepository.selectRow w.rows e.ID with
          | none => simp
          | some r =>
            cases h4 : w.faultAt 4 with
            | some m => simp
            | none =>
              simp
              intro he
              subst he
              refine ⟨?_, ?_⟩
              · simp [cacheLookup]
              · simp [commentRepo_selectRow_updatedRows, hr]

/-- With an entry in the cache, `Get` returns that entry or no entity. -/
theorem commentRepo_Get_cached_only (w : World Comment) (id : Int) (c x : Comment)
    (hc : cacheLookup (commentKey id) w.cache = some c)
    (hx : (commentRepository.Get w id).1.1 = some x) : x = c := by
  revert hx
  rw [commentRepo_Get_eq]
  cases w.faultAt 0 <;> simp [hc]
  exact fun h => h.symm

/-- A `Get` right after a successful `Update` is served the row the `Update` wrote. -/
theorem commentRepo_get_after_update (w : World Comment) (e e' : Comment)
    (h : (commentRepository.Update w e).1 = .returned (none, e')) :
    ((commentRepository.Update w e).2.faultAt 0 = none →
        (commentRepository.Get (commentRepository.Update w e).2 e.ID).1 = (some e', none)) ∧
      (∀ x, (commentRepository.Get (commentRepository.Update w e).2 e.ID).1.1 = some x →
        x = e') ∧
      commentRepository.selectRow (commentRepository.Update w e).2.rows e.ID = some e' ∧
      ∃ r, commentRepository.selectRow w.rows e.ID = some r ∧
        e' = { r with Body := e.Body,
                      UpdatedAt := { Time := e.UpdatedAt.Time, Valid := true } } := by
  obtain ⟨hc, hs, hr⟩ := commentRepo_update_ok w e e' h
  refine ⟨fun hf => ?_, fun x hx => commentRepo_Get_cached_only _ _ _ _ hc hx, hs, hr⟩
  rw [commentRepo_Get_hit _ e.ID e' hf hc]

/-- A `Get` right after a successful `Delete` finds nothing. -/
theorem commentRepo_get_after_delete (w : World Comment) (id : Int)
    (h : (commentRepository.Delete w id).1 = none) :
    (commentRepository.Get (commentRepository.Delete w id).2 id).1.1 = none ∧
      ((commentRepository.Delete w id).2.faultAt 0 = none →
        (commentRepository.Delete w id).2.faultAt 1 = none →
        (commentRepository.Get (commentRepository.Delete w id).2 id).1 =
          (none, some .ErrNoRows)) := by
  revert h
  rw [commentRepo_Delete_eq]
  cases h0 : w.faultAt 0 with
  | some m => simp
  | none =>
    cases h1 : w.faultAt 1 with
    | some m => simp
    | none =>
      intro _
      refine ⟨?_, ?_⟩
      · exact commentRepo_Get_absent_nil _ _ (commentRepo_selectRow_deletedRows _ _)
          (cacheLookup_erase_self _ _)
      · intro hf0 hf1
        rw [commentRepo_Get_absent _ _ (commentRepo_selectRow_deletedRows _ _)
          (cacheLookup_erase_self _ _) hf0 hf1]

/-- A failing store write in `Update` is returned and nothing has changed. -/
theorem commentRepo_update_write_fault (w : World Comment) (e : Comment) (m : String)
    (h0 : w.faultAt 0 = some m) :
    commentRepository.Update w e =
      (.returned (some (.infra m), e), w.step (.sqlUpdate e.ID)) := by
  rw [commentRepo_Update_eq]; simp [h0]

/-- A failing store write in `Create` is returned and nothing has changed. -/
theorem commentRepo_create_write_fault (w : World Comment) (e : Comment) (m : String)
    (h0 : w.faultAt 0 = some m) :
    commentRepository.Create w e = (.returned (some (.infra m), e), w.step .sqlInsert) := by
  rw [commentRepo_Create_eq]; simp [h0]

/-- Once the `UPDATE` statement went through, the table holds the written values
however the call ends. -/
theorem commentRepo_update_written (w : World Comment) (e : Comment)
    (h0 : w.faultAt 0 = none) :
    (commentRepository.Update w e).2.rows = commentRepository.updatedRows w.rows e := by
  rw [commentRepo_Update_eq]
  simp only [h0]
  cases w.faultAt 1 with
  | some m => rfl
  | none =>
    have hrows := commentRepo_Get_rows
      (w.invalidated (commentRepository.updatedRows w.rows e) (.sqlUpdate e.ID)
        (commentKey e.ID)) e.ID
    revert hrows
    generalize commentRepository.Get _ _ = g
    obtain ⟨⟨_ | t, err⟩, w4⟩ := g <;> simp

/-- Once the `INSERT` statement went through, the table holds the new row however the
call ends. -/
theorem commentRepo_create_written (w : World Comment) (e : Comment)
    (h0 : w.faultAt 0 = none) :
    (commentRepository.Create w e).2.rows =
      w.rows ++ [commentRepository.insertedRow w.nextID e] := by
  rw [commentRepo_Create_eq]
  simp only [h0]
  cases w.faultAt 1 with
  | some m => rfl
  | none =>
    have hrows := commentRepo_Get_rows
      (w.inserted (commentRepository.insertedRow w.nextID e)) w.nextID
    revert hrows
    generalize commentRepository.Get _ _ = g
    obtain ⟨⟨_ | t, err⟩, w4⟩ := g <;> simp

/-- `Create` leaves the cache entries under every key but the new one as they were. -/
theorem commentRepo_create_cache_other (w : World Comment) (e : Comment) (k : String)
    (hk : k ≠ commentKey w.nextID) :
    cacheLookup k (commentRepository.Create w e).2.cache = cacheLookup k w.cache := by
  rw [commentRepo_Create_eq]
  cases w.faultAt 0 with
  | some m => rfl
  | none =>
    cases w.faultAt 1 with
    | some m => rfl
    | none =>
      have hc := commentRepo_Get_cache_other
        (w.inserted (commentRepository.insertedRow w.nextID e)) w.nextID k hk
      revert hc
      generalize commentRepository.Get _ _ = g
      obtain ⟨⟨_ | t, err⟩, w4⟩ := g <;> simp

theorem commentRepo_selectRow_append_fresh (rows : List Comment) (id : Int) (r : Comment)
    (hfresh : commentRepository.selectRow rows id = none) (hid : r.ID = id) :
    commentRepository.selectRow (rows ++ [r]) id = some r := by
  simp only [commentRepository.selectRow] at hfresh ⊢
  simp [List.find?_append, hfresh, hid]

/-- A `Create` answered without fault, for a fresh identifier with no cache entry: the
inserted row is returned and has been put in the cache by the re-read. -/
theorem commentRepo_create_populates (w : World Comment) (e : Comment)
    (hfresh : commentRepository.selectRow w.rows w.nextID = none)
    (hc : cacheLookup (commentKey w.nextID) w.cache = none)
    (h0 : w.faultAt 0 = none) (h1 : w.faultAt 1 = none) (h2 : w.faultAt 2 = none)
    (h3 : w.faultAt 3 = none) (h4 : w.faultAt 4 = none) :
    (commentRepository.Create w e).1 =
        .returned (none, commentRepository.insertedRow w.nextID e) ∧
      cacheLookup (commentKey w.nextID) (commentRepository.Create w e).2.cache =
        some (commentRepository.insertedRow w.nextID e) ∧
      (commentRepository.Create w e).2.trace =
        w.trace ++ [.sqlInsert, .sqlLastInsertId, .cacheGet (commentKey w.nextID),
          .sqlSelect w.nextID, .cacheSet (commentKey w.nextID)] := by
  rw [commentRepo_Create_eq]
  simp only [h0, h1]
  rw [commentRepo_Get_cold (w.inserted (commentRepository.insertedRow w.nextID e)) w.nextID
    (commentRepository.insertedRow w.nextID e)
    (commentRepo_selectRow_append_fresh _ _ _ hfresh rfl) hc
    (by simpa using h2) (by simpa using h3) (by simpa using h4)]
  simp [cacheLookup]

/-- A successful `Get` issued one cache read, or a cache read, a store read and a cache
write. -/
theorem commentRepo_Get_ok_trace (w : World Comment) (id : Int) (c : Comment)
    (h : (commentRepository.Get w id).1 = (some c, none)) :
    (commentRepository.Get w id).2.trace = w.trace ++ [.cacheGet (commentKey id)] ∨
      (commentRepository.Get w id).2.trace =
        w.trace ++ [.cacheGet (commentKey id), .sqlSelect id, .cacheSet (commentKey id)] := by
  revert h
  rw [commentRepo_Get_eq]
  cases w.faultAt 0 <;> cases hc : cacheLookup (commentKey id) w.cache <;>
    cases w.faultAt 1 <;> cases commentRepository.selectRow w.rows id <;>
    cases w.faultAt 2 <;> simp

/-- Coherence looks at the table and the cache only. -/
theorem commentRepo_coherent_congr (w w' : World Comment) (hr : w'.rows = w.rows)
    (hc : w'.cache = w.cache) (h : commentRepository.coherent w) :
    commentRepository.coherent w' := by
  intro id c hl
  rw [hr]
  rw [hc] at hl
  exact h id c hl

/-- Putting the row of `id` under the key of `id` keeps the cache coherent. -/
theorem commentRepo_coherent_set (w w' : World Comment) (id : Int) (r : Comment)
    (hr : w'.rows = w.rows)
    (hc : w'.cache = (commentKey id, r) :: cacheErase (commentKey id) w.cache)
    (hrow : commentRepository.selectRow w.rows id = some r)
    (h : commentRepository.coherent w) : commentRepository.coherent w' := by
  intro id' c hl
  rw [hr]
  rw [hc] at hl
  by_cases hk : commentKey id' = commentKey id
  · have hid := commentKey_injective id' id hk
    subst hid
    simp [cacheLookup] at hl
    rw [← hl]; exact hrow
  · simp only [cacheLookup, Ne.symm hk, if_false] at hl
    rw [cacheLookup_erase_other _ _ _ hk] at hl
    exact h id' c hl

/-- `Get` keeps the cache coherent, whatever its outcome. -/
theorem commentRepo_coherent_Get (w : World Comment) (id : Int)
    (h : commentRepository.coherent w) :
    commentRepository.coherent (commentRepository.Get w id).2 := by
  rw [commentRepo_Get_eq]
  cases w.faultAt 0 with
  | some m => exact commentRepo_coherent_congr w _ rfl rfl h
  | none =>
    cases cacheLookup (commentKey id) w.cache with
    | some c => exact commentRepo_coherent_congr w _ rfl rfl h
    | none =>
      cases w.faultAt 1 with
      | some m => exact commentRepo_coherent_congr w _ rfl rfl h
      | none =>
        cases hrow : commentRepository.selectRow w.rows id with
        | none => exact commentRepo_coherent_congr w _ rfl rfl h
        | some r =>
          cases w.faultAt 2 with
          | some m => exact commentRepo_coherent_congr w _ rfl rfl h
          | none => exact commentRepo_coherent_set w _ id r rfl rfl hrow h

/-- A row found in the table is still found after an insert at the end. -/
theorem commentRepo_selectRow_append (rows : List Comment) (id : Int) (c r : Comment)
    (h : commentRepository.selectRow rows id = some c) :
    commentRepository.selectRow (rows ++ [r]) id = some c := by
  simp only [commentRepository.selectRow] at h ⊢
  simp [List.find?_append, h]

/-- The `UPDATE` of one identifier leaves the rows of the others. -/
theorem commentRepo_selectRow_updatedRows_other (rows : List Comment) (e : Comment)
    (id : Int) (hid : id ≠ e.ID) :
    commentRepository.selectRow (commentRepository.updatedRows rows e) id =
      commentRepository.selectRow rows id := by
  induction rows with
  | nil => rfl
  | cons r rest ih =>
    simp only [commentRepository.selectRow, commentRepository.updatedRows, List.map_cons,
      List.find?_cons] at ih ⊢
    by_cases h : r.ID = e.ID
    · have hne : ¬ r.ID = id := fun h' => hid (h' ▸ h)
      have hne' : ¬ e.ID = id := fun h' => hid h'.symm
      simp only [h, if_true, hne', decide_False, ih]
    · simp only [if_neg h]
      by_cases h2 : r.ID = id
      · simp only [h2, decide_True]
      · simp only [h2, decide_False, ih]

/-- The `DELETE` of one identifier leaves the rows of the others. -/
theorem commentRepo_selectRow_deletedRows_other (rows : List Comment) (id id' : Int)
    (hid : id' ≠ id) :
    commentRepository.selectRow (commentRepository.deletedRows rows id) id' =
      commentRepository.selectRow rows id' := by
  induction rows with
  | nil => rfl
  | cons r rest ih =>
    simp only [commentRepository.selectRow, commentRepository.deletedRows] at ih ⊢
    by_cases h : r.ID = id
    · have hne : ¬ r.ID = id' := fun h' => hid (h' ▸ h)
      rw [List.filter_cons_of_neg (by simpa using h), List.find?_cons_of_neg _ (by simpa using hne)]
      exact ih
    · rw [List.filter_cons_of_pos (by simpa using h)]
      by_cases h2 : r.ID = id'
      · rw [List.find?_cons_of_pos _ (by simpa using h2),
          List.find?_cons_of_pos _ (by simpa using h2)]
      · rw [List.find?_cons_of_neg _ (by simpa using h2),
          List.find?_cons_of_neg _ (by simpa using h2)]
        exact ih

/-- A store write on `id` followed by the invalidation of its key keeps the cache
coherent when the write left the rows of the other identifiers. -/
theorem commentRepo_coherent_invalidated (w : World Comment) (rows : List Comment)
    (ev : Event) (id : Int)
    (hrows : ∀ id', id' ≠ id →
      commentRepository.selectRow rows id' = commentRepository.selectRow w.rows id')
    (h : commentRepository.coherent w) :
    commentRepository.coherent (w.invalidated rows ev (commentKey id)) := by
  intro id' c hl
  simp only [invalidated_cache, invalidated_rows] at hl ⊢
  by_cases hk : commentKey id' = commentKey id
  · rw [hk, cacheLookup_erase_self] at hl
    exact absurd hl (by simp)
  · rw [cacheLookup_erase_other _ _ _ hk] at hl
    have hid : id' ≠ id := fun h' => hk (by rw [h'])
    rw [hrows id' hid]
    exact h id' c hl

/-- `Create` keeps the cache coherent, whatever its outcome. -/
theorem commentRepo_coherent_Create (w : World Comment) (e : Comment)
    (h : commentRepository.coherent w) :
    commentRepository.coherent (commentRepository.Create w e).2 := by
  have hins : commentRepository.coherent
      (w.inserted (commentRepository.insertedRow w.nextID e)) := by
    intro id c hl
    exact commentRepo_selectRow_append _ _ _ _ (h id c hl)
  rw [commentRepo_Create_eq]
  cases w.faultAt 0 with
  | some m => exact commentRepo_coherent_congr w _ rfl rfl h
  | none =>
    cases w.faultAt 1 with
    | some m => exact hins
    | none =>
      have hg := commentRepo_coherent_Get _ w.nextID hins
      revert hg
      generalize commentRepository.Get _ _ = g
      obtain ⟨⟨_ | t, err⟩, w4⟩ := g <;> exact fun hg => hg

/-- A successful `Update` keeps the cache coherent. -/
theorem commentRepo_coherent_Update (w : World Comment) (e e' : Comment)
    (hok : (commentRepository.Update w e).1 = .returned (none, e'))
    (h : commentRepository.coherent w) :
    commentRepository.coherent (commentRepository.Update w e).2 := by
  revert hok
  rw [commentRepo_Update_eq]
  cases w.faultAt 0 with
  | some m => simp
  | none =>
    cases w.faultAt 1 with
    | some m => simp
    | none =>
      have hinv := commentRepo_coherent_invalidated w
        (commentRepository.updatedRows w.rows e) (.sqlUpdate e.ID) e.ID
        (fun id' hid => commentRepo_selectRow_updatedRows_other w.rows e id' hid) h
      have hg := commentRepo_coherent_Get _ e.ID hinv
      revert hg
      generalize commentRepository.Get _ _ = g
      obtain ⟨⟨_ | t, err⟩, w4⟩ := g <;> exact fun hg _ => hg

/-- A successful `Delete` keeps the cache coherent. -/
theorem commentRepo_coherent_Delete (w : World Comment) (id : Int)
    (hok : (commentRepository.Delete w id).1 = none)
    (h : commentRepository.coherent w) :
    commentRepository.coherent (commentRepository.Delete w id).2 := by
  revert hok
  rw [commentRepo_Delete_eq]
  cases w.faultAt 0 with
  | some m => simp
  | none =>
    cases w.faultAt 1 with
    | some m => simp
    | none =>
      intro _
      exact commentRepo_coherent_invalidated w (commentRepository.deletedRows w.rows id)
        (.sqlDelete id) id
        (fun id' hid => commentRepo_selectRow_deletedRows_other w.rows id id' hid) h

/-- On a coherent cache, with its calls answered, `Get` returns the row of the table or
`sql.ErrNoRows`. -/
theorem commentRepo_Get_coherent (w : World Comment) (id : Int)
    (h : commentRepository.coherent w)
    (h0 : w.faultAt 0 = none) (h1 : w.faultAt 1 = none) (h2 : w.faultAt 2 = none) :
    (commentRepository.Get w id).1 =
      match commentRepository.selectRow w.rows id with
      | some r => (some r, none)
      | none => (none, some .ErrNoRows) := by
  rw [commentRepo_Get_eq]
  simp only [h0, h1, h2]
  cases hc : cacheLookup (commentKey id) w.cache with
  | some c => simp [h id c hc]
  | none => cases commentRepository.selectRow w.rows id <;> rfl

/-- An empty cache is coherent with every table. -/
theorem commentRepo_coherent_empty (w : World Comment) (h : w.cache = []) :
    commentRepository.coherent w := by
  intro id c hl
  rw [h] at hl
  exact absurd hl (by simp [cacheLookup])

/-- A `Create` that returns, for a fresh identifier with no cache entry, returns the
inserted row. -/
theorem commentRepo_create_ok (w : World Comment) (e e' : Comment)
    (hfresh : commentRepository.selectRow w.rows w.nextID = none)
    (hc : cacheLookup (commentKey w.nextID) w.cache = none)
    (hok : (commentRepository.Create w e).1 = .returned (none, e')) :
    e' = commentRepository.insertedRow w.nextID e := by
  revert hok
  rw [commentRepo_Create_eq]
  cases w.faultAt 0 with
  | some m => simp
  | none =>
    cases w.faultAt 1 with
    | some m => simp
    | none =>
      simp only []
      rw [commentRepo_Get_eq]
      simp only [inserted_faultAt, inserted_cache, inserted_rows, hc,
        commentRepo_selectRow_append_fresh w.rows w.nextID
          (commentRepository.insertedRow w.nextID e) hfresh rfl]
      cases w.faultAt 2 <;> cases w.faultAt 3 <;> cases w.faultAt 4 <;> simp <;>
        exact fun h => h.symm

/-- On a coherent cache a successful `Get` returns the row of the table. -/
theorem commentRepo_Get_ok_row (w : World Comment) (id : Int) (c : Comment)
    (h : (commentRepository.Get w id).1 = (some c, none))
    (hcoh : commentRepository.coherent w) :
    commentRepository.selectRow w.rows id = some c := by
  revert h
  rw [commentRepo_Get_eq]
  cases w.faultAt 0 with
  | some m => simp
  | none =>
    cases hc : cacheLookup (commentKey id) w.cache with
    | some c' =>
      simp only [Prod.mk.injEq, Option.some.injEq, and_true]
      intro h
      rw [← h]
      exact hcoh id c' hc
    | none =>
      cases w.faultAt 1 with
      | some m => simp
      | none =>
        cases commentRepository.selectRow w.rows id with
        | none => simp
        | some r => cases w.faultAt 2 <;> simp

/-- An `Update` of a stored identifier, its five calls answered, returns the row with the
new values. -/
theorem commentRepo_update_succeeds (w : World Comment) (e r : Comment)
    (hr : commentRepository.selectRow w.rows e.ID = some r)
    (h0 : w.faultAt 0 = none) (h1 : w.faultAt 1 = none) (h2 : w.faultAt 2 = none)
    (h3 : w.faultAt 3 = none) (h4 : w.faultAt 4 = none) :
    (commentRepository.Update w e).1 =
      .returned (none,
        { r with Body := e.Body,
                 UpdatedAt := { Time := e.UpdatedAt.Time, Valid := true } }) := by
  rw [commentRepo_Update_eq]
  simp only [h0, h1]
  rw [commentRepo_Get_cold _ e.ID
    { r with Body := e.Body,
             UpdatedAt := { Time := e.UpdatedAt.Time, Valid := true } }
    (by simp [commentRepo_selectRow_updatedRows, hr]) (by simp [cacheLookup_erase_self])
    (by simpa using h2) (by simpa using h3) (by simpa using h4)]

/-! ## `postRepository`, call by call -/

/-- The outcome of `Get`, call by call. -/
theorem postRepo_Get_eq (w : World Post) (id : Int) :
    postRepository.Get w id =
      match w.faultAt 0 with
      | some m => ((none, some (.infra m)), w.step (.cacheGet (postKey id)))
      | none =>
        match cacheLookup (postKey id) w.cache with
        | some c => ((some c, none), w.step (.cacheGet (postKey id)))
        | none =>
          match w.faultAt 1 with
          | some m =>
            ((none, some (.infra m)),
              (w.step (.cacheGet (postKey id))).step (.sqlSelect id))
          | none =>
            match postRepository.selectRow w.rows id with
            | none =>
              ((none, some .ErrNoRows),
                (w.step (.cacheGet (postKey id))).step (.sqlSelect id))
            | some c =>
              match w.faultAt 2 with
              | some m =>
                ((some c, some (.infra m)),
                  ((w.step (.cacheGet (postKey id))).step (.sqlSelect id)).step
                    (.cacheSet (postKey id)))
              | none =>
                ((some c, none),
                  (((w.step (.cacheGet (postKey id))).step (.sqlSelect id)).step
                      (.cacheSet (postKey id))).withCache
                    ((postKey id, c) :: cacheErase (postKey id) w.cache)) := by
  simp only [postRepository.Get, cacheGet_eq, cacheSet_eq, call_eq]
  cases w.faultAt 0 with
  | some m => simp
  | none =>
    cases cacheLookup (postKey id) w.cache with
    | some c => simp
    | none =>
      simp
      cases w.faultAt 1 with
      | some m => simp
      | none =>
        simp
        cases postRepository.selectRow w.rows id with
        | none => simp
        | some c =>
          simp
          cases w.faultAt 2 <;> simp [World.withCache, World.step]

/-- The outcome of `Update`, call by call, down to the canonical re-read. -/
theorem postRepo_Update_eq (w : World Post) (e : Post) :
    postRepository.Update w e =
      match w.faultAt 0 with
      | some m => (.returned (some (.infra m), e), w.step (.sqlUpdate e.ID))
      | none =>
        match w.faultAt 1 with
        | some m =>
          (.returned (some (.infra m), e),
            ({ w.step (.sqlUpdate e.ID) with rows := postRepository.updatedRows w.rows e }).step
              (.cacheDelete (postKey e.ID)))
        | none =>
          match postRepository.Get
              (w.invalidated (postRepository.updatedRows w.rows e) (.sqlUpdate e.ID)
                (postKey e.ID)) e.ID with
          | ((none, _), w4) => (.panicked, w4)
          | ((some temp, err), w4) => (.returned (err, temp), w4) := by
  obtain ⟨rows0, nextID, cache, faults, trace⟩ := w
  have he : cacheLookup (postKey e.ID) cache = none →
      List.filter (fun kv => !decide (kv.1 = postKey e.ID)) cache = cache := fun hc => by
    simpa [cacheErase] using cacheErase_absent (postKey e.ID) cache hc
  rcases faults with _ | ⟨_ | m0, _ | ⟨_ | m1, fs⟩⟩ <;>
    cases hc : cacheLookup (postKey e.ID) cache <;>
    simp [postRepository.Update, cacheDelete, World.call, World.faultAt, World.step,
      World.invalidated, cacheErase, hc] <;>
    first
    | rfl
    | (rw [he (by assumption)])

/-- The outcome of `Delete`, call by call. -/
theorem postRepo_Delete_eq (w : World Post) (id : Int) :
    postRepository.Delete w id =
      match w.faultAt 0 with
      | some m => (some (.infra m), w.step (.sqlDelete id))
      | none =>
        match w.faultAt 1 with
        | some m =>
          (some (.infra m),
            ({ w.step (.sqlDelete id) with rows := postRepository.deletedRows w.rows id }).step
              (.cacheDelete (postKey id)))
        | none =>
          (none,
            w.invalidated (postRepository.deletedRows w.rows id) (.sqlDelete id)
              (postKey id)) := by
  obtain ⟨rows0, nextID, cache, faults, trace⟩ := w
  have he : cacheLookup (postKey id) cache = none →
      List.filter (fun kv => !decide (kv.1 = postKey id)) cache = cache := fun hc => by
    simpa [cacheErase] using cacheErase_absent (postKey id) cache hc
  rcases faults with _ | ⟨_ | m0, _ | ⟨_ | m1, fs⟩⟩ <;>
    cases hc : cacheLookup (postKey id) cache <;>
    simp [postRepository.Delete, cacheDelete, World.call, World.faultAt, World.step,
      World.invalidated, cacheErase, hc] <;>
    first
    | rfl
    | (rw [he (by assumption)])

/-- The outcome of `Create`, call by call, down to the canonical re-read. -/
theorem postRepo_Create_eq (w : World Post) (e : Post) :
    postRepository.Create w e =
      match w.faultAt 0 with
      | some m => (.returned (some (.infra m), e), w.step .sqlInsert)
      | none =>
        match w.faultAt 1 with
        | some m =>
          (.returned (some (.infra m), { e with ID := 0 }),
            w.inserted (postRepository.insertedRow w.nextID e))
        | none =>
          match postRepository.Get (w.inserted (postRepository.insertedRow w.nextID e))
              w.nextID with
          | ((none, _), w4) => (.panicked, w4)
          | ((some temp, _), w4) => (.returned (none, temp), w4) := by
  obtain ⟨rows0, nextID, cache, faults, trace⟩ := w
  rcases faults with _ | ⟨_ | m0, _ | ⟨_ | m1, fs⟩⟩ <;>
    simp [postRepository.Create, World.call, World.faultAt, World.step, World.inserted]

theorem postRepo_selectRow_ID {rows : List Post} {id : Int} {r : Post}
    (h : postRepository.selectRow rows id = some r) : r.ID = id := by
  have := List.find?_some h
  simpa using this

theorem postRepo_selectRow_updatedRows (rows : List Post) (e : Post) :
    postRepository.selectRow (postRepository.updatedRows rows e) e.ID =
      (postRepository.selectRow rows e.ID).map (fun r =>
        { r with Title := e.Title, Body := e.Body,
                 UpdatedAt := { Time := e.UpdatedAt.Time, Valid := true } }) := by
  induction rows with
  | nil => rfl
  | cons r rest ih =>
    by_cases h : r.ID = e.ID
    · simp [postRepository.selectRow, postRepository.updatedRows, h]
    · simp only [postRepository.selectRow, postRepository.updatedRows] at ih
      simp [postRepository.selectRow, postRepository.updatedRows, h, ih]

theorem postRepo_selectRow_deletedRows (rows : List Post) (id : Int) :
    postRepository.selectRow (postRepository.deletedRows rows id) id = none := by
  simp [postRepository.selectRow, postRepository.deletedRows, List.find?_eq_none]

/-- `Get` never touches the table. -/
theorem postRepo_Get_rows (w : World Post) (id : Int) :
    (postRepository.Get w id).2.rows = w.rows := by
  rw [postRepo_Get_eq]
  cases w.faultAt 0 <;> cases cacheLookup (postKey id) w.cache <;> cases w.faultAt 1 <;>
    cases postRepository.selectRow w.rows id <;> cases w.faultAt 2 <;> rfl

/-- `Get` never returns a nil entity without an error. -/
theorem postRepo_Get_not_nil_nil (w : World Post) (id : Int) :
    (postRepository.Get w id).1 ≠ (none, none) := by
  rw [postRepo_Get_eq]
  cases w.faultAt 0 <;> cases cacheLookup (postKey id) w.cache <;> cases w.faultAt 1 <;>
    cases postRepository.selectRow w.rows id <;> cases w.faultAt 2 <;> simp

/-- `Get` leaves the cache entries under every other key as they were. -/
theorem postRepo_Get_cache_other (w : World Post) (id : Int) (k : String)
    (hk : k ≠ postKey id) :
    cacheLookup k (postRepository.Get w id).2.cache = cacheLookup k w.cache := by
  rw [postRepo_Get_eq]
  cases w.faultAt 0 <;> cases cacheLookup (postKey id) w.cache <;> cases w.faultAt 1 <;>
    cases postRepository.selectRow w.rows id <;> cases w.faultAt 2 <;>
    simp [cacheLookup, Ne.symm hk, cacheLookup_erase_other _ _ _ hk]

/-- A `Get` served from the cache: one cache read and nothing else. -/
theorem postRepo_Get_hit (w : World Post) (id : Int) (c : Post)
    (hf : w.faultAt 0 = none) (hc : cacheLookup (postKey id) w.cache = some c) :
    postRepository.Get w id = ((some c, none), w.step (.cacheGet (postKey id))) := by
  rw [postRepo_Get_eq]; simp [hf, hc]

/-- A successful `Get` leaves the entity it returned in the cache. -/
theorem postRepo_Get_ok_cached (w : World Post) (id : Int) (c : Post)
    (h : (postRepository.Get w id).1 = (some c, none)) :
    cacheLookup (postKey id) (postRepository.Get w id).2.cache = some c := by
  revert h
  rw [postRepo_Get_eq]
  cases w.faultAt 0 <;> cases hc : cacheLookup (postKey id) w.cache <;>
    cases w.faultAt 1 <;> cases postRepository.selectRow w.rows id <;>
    cases w.faultAt 2 <;> simp [cacheLookup, hc]

/-- A `Get` on a cold cache with the row in the table: three calls, the row returned and
cached. -/
theorem postRepo_Get_cold (w : World Post) (id : Int) (r : Post)
    (hr : postRepository.selectRow w.rows id = some r)
    (hc : cacheLookup (postKey id) w.cache = none)
    (h0 : w.faultAt 0 = none) (h1 : w.faultAt 1 = none) (h2 : w.faultAt 2 = none) :
    postRepository.Get w id =
      ((some r, none),
        (((w.step (.cacheGet (postKey id))).step (.sqlSelect id)).step
            (.cacheSet (postKey id))).withCache
          ((postKey id, r) :: cacheErase (postKey id) w.cache)) := by
  rw [postRepo_Get_eq]; simp [hr, hc, h0, h1, h2]

/-- A `Get` with neither a cache entry nor a row: two calls and `sql.ErrNoRows`. -/
theorem postRepo_Get_absent (w : World Post) (id : Int)
    (hr : postRepository.selectRow w.rows id = none)
    (hc : cacheLookup (postKey id) w.cache = none)
    (h0 : w.faultAt 0 = none) (h1 : w.faultAt 1 = none) :
    postRepository.Get w id =
      ((none, some .ErrNoRows),
        (w.step (.cacheGet (postKey id))).step (.sqlSelect id)) := by
  rw [postRepo_Get_eq]; simp [hr, hc, h0, h1]

/-- With neither a cache entry nor a row, `Get` returns no entity, whatever the faults. -/
theorem postRepo_Get_absent_nil (w : World Post) (id : Int)
    (hr : postRepository.selectRow w.rows id = none)
    (hc : cacheLookup (postKey id) w.cache = none) :
    (postRepository.Get w id).1.1 = none := by
  rw [postRepo_Get_eq]
  cases w.faultAt 0 <;> cases w.faultAt 1 <;> simp [hr, hc]

/-- A successful `Update` leaves the row it wrote in the table and in the cache. -/
theorem postRepo_update_ok (w : World Post) (e e' : Post)
    (h : (postRepository.Update w e).1 = .returned (none, e')) :
    cacheLookup (postKey e.ID) (postRepository.Update w e).2.cache = some e' ∧
      postRepository.selectRow (postRepository.Update w e).2.rows e.ID = some e' ∧
      ∃ r, postRepository.selectRow w.rows e.ID = some r ∧
        e' = { r with Title := e.Title, Body := e.Body,
                      UpdatedAt := { Time := e.UpdatedAt.Time, Valid := true } } := by
  revert h
  rw [postRepo_Update_eq]
  cases h0 : w.faultAt 0 with
  | some m => simp
  | none =>
    cases h1 : w.faultAt 1 with
    | some m => simp
    | none =>
      simp only []
      rw [postRepo_Get_eq]
      simp only [invalidated_faultAt, invalidated_cache, invalidated_rows,
        cacheLookup_erase_self, postRepo_selectRow_updatedRows]
      cases h2 : w.faultAt 2 with
      | some m => simp
      | none =>
        cases h3 : w.faultAt 3 with
        | some m => simp
        | none =>
          cases hr : postRepository.selectRow w.rows e.ID with
          | none => simp
          | some r =>
            cases h4 : w.faultAt 4 with
            | some m => simp
            | none =>
              simp
              intro he
              subst he
              refine ⟨?_, ?_⟩
              · simp [cacheLookup]
              · simp [postRepo_selectRow_updatedRows, hr]

/-- With an entry in the cache, `Get` returns that entry or no entity. -/
theorem postRepo_Get_cached_only (w : World Post) (id : Int) (c x : Post)
    (hc : cacheLookup (postKey id) w.cache = some c)
    (hx : (postRepository.Get w id).1.1 = some x) : x = c := by
  revert hx
  rw [postRepo_Get_eq]
  cases w.faultAt 0 <;> simp [hc]
  exact fun h => h.symm

/-- A `Get` right after a successful `Update` is served the row the `Update` wrote. -/
theorem postRepo_get_after_update (w : World Post) (e e' : Post)
    (h : (postRepository.Update w e).1 = .returned (none, e')) :
    ((postRepository.Update w e).2.faultAt 0 = none →
        (postRepository.Get (postRepository.Update w e).2 e.ID).1 = (some e', none)) ∧
      (∀ x, (postRepository.Get (postRepository.Update w e).2 e.ID).1.1 = some x →
        x = e') ∧
      postRepository.selectRow (postRepository.Update w e).2.rows e.ID = some e' ∧
      ∃ r, postRepository.selectRow w.rows e.ID = some r ∧
        e' = { r with Title := e.Title, Body := e.Body,
                      UpdatedAt := { Time := e.UpdatedAt.Time, Valid := true } } := by
  obtain ⟨hc, hs, hr⟩ := postRepo_update_ok w e e' h
  refine ⟨fun hf => ?_, fun x hx => postRepo_Get_cached_only _ _ _ _ hc hx, hs, hr⟩
  rw [postRepo_Get_hit _ e.ID e' hf hc]

/-- A `Get` right after a successful `Delete` finds nothing. -/
theorem postRepo_get_after_delete (w : World Post) (id : Int)
    (h : (postRepository.Delete w id).1 = none) :
    (postRepository.Get (postRepository.Delete w id).2 id).1.1 = none ∧
      ((postRepository.Delete w id).2.faultAt 0 = none →
        (postRepository.Delete w id).2.faultAt 1 = none →
        (postRepository.Get (postRepository.Delete w id).2 id).1 =
          (none, some .ErrNoRows)) := by
  revert h
  rw [postRepo_Delete_eq]
  cases h0 : w.faultAt 0 with
  | some m => simp
  | none =>
    cases h1 : w.faultAt 1 with
    | some m => simp
    | none =>
      intro _
      refine ⟨?_, ?_⟩
      · exact postRepo_Get_absent_nil _ _ (postRepo_selectRow_deletedRows _ _)
          (cacheLookup_erase_self _ _)
      · intro hf0 hf1
        rw [postRepo_Get_absent _ _ (postRepo_selectRow_deletedRows _ _)
          (cacheLookup_erase_self _ _) hf0 hf1]

/-- A failing store write in `Update` is returned and nothing has changed. -/
theorem postRepo_update_write_fault (w : World Post) (e : Post) (m : String)
    (h0 : w.faultAt 0 = some m) :
    postRepository.Update w e =
      (.returned (some (.infra m), e), w.step (.sqlUpdate e.ID)) := by
  rw [postRepo_Update_eq]; simp [h0]

/-- A failing store write in `Create` is returned and nothing has changed. -/
theorem postRepo_create_write_fault (w : World Post) (e : Post) (m : String)
    (h0 : w.faultAt 0 = some m) :
    postRepository.Create w e = (.returned (some (.infra m), e), w.step .sqlInsert) := by
  rw [postRepo_Create_eq]; simp [h0]

/-- Once the `UPDATE` statement went through, the table holds the written values
however the call ends. -/
theorem postRepo_update_written (w : World Post) (e : Post)
    (h0 : w.faultAt 0 = none) :
    (postRepository.Update w e).2.rows = postRepository.updatedRows w.rows e := by
  rw [postRepo_Update_eq]
  simp only [h0]
  cases w.faultAt 1 with
  | some m => rfl
  | none =>
    have hrows := postRepo_Get_rows
      (w.invalidated (postRepository.updatedRows w.rows e) (.sqlUpdate e.ID)
        (postKey e.ID)) e.ID
    revert hrows
    generalize postRepository.Get _ _ = g
    obtain ⟨⟨_ | t, err⟩, w4⟩ := g <;> simp

/-- Once the `INSERT` statement went through, the table holds the new row however the
call ends. -/
theorem postRepo_create_written (w : World Post) (e : Post)
    (h0 : w.faultAt 0 = none) :
    (postRepository.Create w e).2.rows =
      w.rows ++ [postRepository.insertedRow w.nextID e] := by
  rw [postRepo_Create_eq]
  simp only [h0]
  cases w.faultAt 1 with
  | some m => rfl
  | none =>
    have hrows := postRepo_Get_rows
      (w.inserted (postRepository.insertedRow w.nextID e)) w.nextID
    revert hrows
    generalize postRepository.Get _ _ = g
    obtain ⟨⟨_ | t, err⟩, w4⟩ := g <;> simp

/-- `Create` leaves the cache entries under every key but the new one as they were. -/
theorem postRepo_create_cache_other (w : World Post) (e : Post) (k : String)
    (hk : k ≠ postKey w.nextID) :
    cacheLookup k (postRepository.Create w e).2.cache = cacheLookup k w.cache := by
  rw [postRepo_Create_eq]
  cases w.faultAt 0 with
  | some m => rfl
  | none =>
    cases w.faultAt 1 with
    | some m => rfl
    | none =>
      have hc := postRepo_Get_cache_other
        (w.inserted (postRepository.insertedRow w.nextID e)) w.nextID k hk
      revert hc
      generalize postRepository.Get _ _ = g
      obtain ⟨⟨_ | t, err⟩, w4⟩ := g <;> simp

theorem postRepo_selectRow_append_fresh (rows : List Post) (id : Int) (r : Post)
    (hfresh : postRepository.selectRow rows id = none) (hid : r.ID = id) :
    postRepository.selectRow (rows ++ [r]) id = some r := by
  simp only [postRepository.selectRow] at hfresh ⊢
  simp [List.find?_append, hfresh, hid]

/-- A `Create` answered without fault, for a fresh identifier with no cache entry: the
inserted row is returned and has been put in the cache by the re-read. -/
theorem postRepo_create_populates (w : World Post) (e : Post)
    (hfresh : postRepository.selectRow w.rows w.nextID = none)
    (hc : cacheLookup (postKey w.nextID) w.cache = none)
    (h0 : w.faultAt 0 = none) (h1 : w.faultAt 1 = none) (h2 : w.faultAt 2 = none)
    (h3 : w.faultAt 3 = none) (h4 : w.faultAt 4 = none) :
    (postRepository.Create w e).1 =
        .returned (none, postRepository.insertedRow w.nextID e) ∧
      cacheLookup (postKey w.nextID) (postRepository.Create w e).2.cache =
        some (postRepository.insertedRow w.nextID e) ∧
      (postRepository.Create w e).2.trace =
        w.trace ++ [.sqlInsert, .sqlLastInsertId, .cacheGet (postKey w.nextID),
          .sqlSelect w.nextID, .cacheSet (postKey w.nextID)] := by
  rw [postRepo_Create_eq]
  simp only [h0, h1]
  rw [postRepo_Get_cold (w.inserted (postRepository.insertedRow w.nextID e)) w.nextID
    (postRepository.insertedRow w.nextID e)
    (postRepo_selectRow_append_fresh _ _ _ hfresh rfl) hc
    (by simpa using h2) (by simpa using h3) (by simpa using h4)]
  simp [cacheLookup]

/-- A successful `Get` issued one cache read, or a cache read, a store read and a cache
write. -/
theorem postRepo_Get_ok_trace (w : World Post) (id : Int) (c : Post)
    (h : (postRepository.Get w id).1 = (some c, none)) :
    (postRepository.Get w id).2.trace = w.trace ++ [.cacheGet (postKey id)] ∨
      (postRepository.Get w id).2.trace =
        w.trace ++ [.cacheGet (postKey id), .sqlSelect id, .cacheSet (postKey id)] := by
  revert h
  rw [postRepo_Get_eq]
  cases w.faultAt 0 <;> cases hc : cacheLookup (postKey id) w.cache <;>
    cases w.faultAt 1 <;> cases postRepository.selectRow w.rows id <;>
    cases w.faultAt 2 <;> simp

/-- Coherence looks at the table and the cache only. -/
theorem postRepo_coherent_congr (w w' : World Post) (hr : w'.rows = w.rows)
    (hc : w'.cache = w.cache) (h : postRepository.coherent w) :
    postRepository.coherent w' := by
  intro id c hl
  rw [hr]
  rw [hc] at hl
  exact h id c hl

/-- Putting the row of `id` under the key of `id` keeps the cache coherent. -/
theorem postRepo_coherent_set (w w' : World Post) (id : Int) (r : Post)
    (hr : w'.rows = w.rows)
    (hc : w'.cache = (postKey id, r) :: cacheErase (postKey id) w.cache)
    (hrow : postRepository.selectRow w.rows id = some r)
    (h : postRepository.coherent w) : postRepository.coherent w' := by
  intro id' c hl
  rw [hr]
  rw [hc] at hl
  by_cases hk : postKey id' = postKey id
  · have hid := postKey_injective id' id hk
    subst hid
    simp [cacheLookup] at hl
    rw [← hl]; exact hrow
  · simp only [cacheLookup, Ne.symm hk, if_false] at hl
    rw [cacheLookup_erase_other _ _ _ hk] at hl
    exact h id' c hl

/-- `Get` keeps the cache coherent, whatever its outcome. -/
theorem postRepo_coherent_Get (w : World Post) (id : Int)
    (h : postRepository.coherent w) :
    postRepository.coherent (postRepository.Get w id).2 := by
  rw [postRepo_Get_eq]
  cases w.faultAt 0 with
  | some m => exact postRepo_coherent_congr w _ rfl rfl h
  | none =>
    cases cacheLookup (postKey id) w.cache with
    | some c => exact postRepo_coherent_congr w _ rfl rfl h
    | none =>
      cases w.faultAt 1 with
      | some m => exact postRepo_coherent_congr w _ rfl rfl h
      | none =>
        cases hrow : postRepository.selectRow w.rows id with
        | none => exact postRepo_coherent_congr w _ rfl rfl h
        | some r =>
          cases w.faultAt 2 with
          | some m => exact postRepo_coherent_congr w _ rfl rfl h
          | none => exact postRepo_coherent_set w _ id r rfl rfl hrow h

/-- A row found in the table is still found after an insert at the end. -/
theorem postRepo_selectRow_append (rows : List Post) (id : Int) (c r : Post)
    (h : postRepository.selectRow rows id = some c) :
    postRepository.selectRow (rows ++ [r]) id = some c := by
  simp only [postRepository.selectRow] at h ⊢
  simp [List.find?_append, h]

/-- The `UPDATE` of one identifier leaves the rows of the others. -/
theorem postRepo_selectRow_updatedRows_other (rows : List Post) (e : Post)
    (id : Int) (hid : id ≠ e.ID) :
    postRepository.selectRow (postRepository.updatedRows rows e) id =
      postRepository.selectRow rows id := by
  induction rows with
  | nil => rfl
  | cons r rest ih =>
    simp only [postRepository.selectRow, postRepository.updatedRows, List.map_cons,
      List.find?_cons] at ih ⊢
    by_cases h : r.ID = e.ID
    · have hne : ¬ r.ID = id := fun h' => hid (h' ▸ h)
      have hne' : ¬ e.ID = id := fun h' => hid h'.symm
      simp only [h, if_true, hne', decide_False, ih]
    · simp only [if_neg h]
      by_cases h2 : r.ID = id
      · simp only [h2, decide_True]
      · simp only [h2, decide_False, ih]

/-- The `DELETE` of one identifier leaves the rows of the others. -/
theorem postRepo_selectRow_deletedRows_other (rows : List Post) (id id' : Int)
    (hid : id' ≠ id) :
    postRepository.selectRow (postRepository.deletedRows rows id) id' =
      postRepository.selectRow rows id' := by
  induction rows with
  | nil => rfl
  | cons r rest ih =>
    simp only [postRepository.selectRow, postRepository.deletedRows] at ih ⊢
    by_cases h : r.ID = id
    · have hne : ¬ r.ID = id' := fun h' => hid (h' ▸ h)
      rw [List.filter_cons_of_neg (by simpa using h), List.find?_cons_of_neg _ (by simpa using hne)]
      exact ih
    · rw [List.filter_cons_of_pos (by simpa using h)]
      by_cases h2 : r.ID = id'
      · rw [List.find?_cons_of_pos _ (by simpa using h2),
          List.find?_cons_of_pos _ (by simpa using h2)]
      · rw [List.find?_cons_of_neg _ (by simpa using h2),
          List.find?_cons_of_neg _ (by simpa using h2)]
        exact ih

/-- A store write on `id` followed by the invalidation of its key keeps the cache
coherent when the write left the rows of the other identifiers. -/
theorem postRepo_coherent_invalidated (w : World Post) (rows : List Post)
    (ev : Event) (id : Int)
    (hrows : ∀ id', id' ≠ id →
      postRepository.selectRow rows id' = postRepository.selectRow w.rows id')
    (h : postRepository.coherent w) :
    postRepository.coherent (w.invalidated rows ev (postKey id)) := by
  intro id' c hl
  simp only [invalidated_cache, invalidated_rows] at hl ⊢
  by_cases hk : postKey id' = postKey id
  · rw [hk, cacheLookup_erase_self] at hl
    exact absurd hl (by simp)
  · rw [cacheLookup_erase_other _ _ _ hk] at hl
    have hid : id' ≠ id := fun h' => hk (by rw [h'])
    rw [hrows id' hid]
    exact h id' c hl

/-- `Create` keeps the cache coherent, whatever its outcome. -/
theorem postRepo_coherent_Create (w : World Post) (e : Post)
    (h : postRepository.coherent w) :
    postRepository.coherent (postRepository.Create w e).2 := by
  have hins : postRepository.coherent
      (w.inserted (postRepository.insertedRow w.nextID e)) := by
    intro id c hl
    exact postRepo_selectRow_append _ _ _ _ (h id c hl)
  rw [postRepo_Create_eq]
  cases w.faultAt 0 with
  | some m => exact postRepo_coherent_congr w _ rfl rfl h
  | none =>
    cases w.faultAt 1 with
    | some m => exact hins
    | none =>
      have hg := postRepo_coherent_Get _ w.nextID hins
      revert hg
      generalize postRepository.Get _ _ = g
      obtain ⟨⟨_ | t, err⟩, w4⟩ := g <;> exact fun hg => hg

/-- A successful `Update` keeps the cache coherent. -/
theorem postRepo_coherent_Update (w : World Post) (e e' : Post)
    (hok : (postRepository.Update w e).1 = .returned (none, e'))
    (h : postRepository.coherent w) :
    postRepository.coherent (postRepository.Update w e).2 := by
  revert hok
  rw [postRepo_Update_eq]
  cases w.faultAt 0 with
  | some m => simp
  | none =>
    cases w.faultAt 1 with
    | some m => simp
    | none =>
      have hinv := postRepo_coherent_invalidated w
        (postRepository.updatedRows w.rows e) (.sqlUpdate e.ID) e.ID
        (fun id' hid => postRepo_selectRow_updatedRows_other w.rows e id' hid) h
      have hg := postRepo_coherent_Get _ e.ID hinv
      revert hg
      generalize postRepository.Get _ _ = g
      obtain ⟨⟨_ | t, err⟩, w4⟩ := g <;> exact fun hg _ => hg

/-- A successful `Delete` keeps the cache coherent. -/
theorem postRepo_coherent_Delete (w : World Post) (id : Int)
    (hok : (postRepository.Delete w id).1 = none)
    (h : postRepository.coherent w) :
    postRepository.coherent (postRepository.Delete w id).2 := by
  revert hok
  rw [postRepo_Delete_eq]
  cases w.faultAt 0 with
  | some m => simp
  | none =>
    cases w.faultAt 1 with
    | some m => simp
    | none =>
      intro _
      exact postRepo_coherent_invalidated w (postRepository.deletedRows w.rows id)
        (.sqlDelete id) id
        (fun id' hid => postRepo_selectRow_deletedRows_other w.rows id id' hid) h

/-- On a coherent cache, with its calls answered, `Get` returns the row of the table or
`sql.ErrNoRows`. -/
theorem postRepo_Get_coherent (w : World Post) (id : Int)
    (h : postRepository.coherent w)
    (h0 : w.faultAt 0 = none) (h1 : w.faultAt 1 = none) (h2 : w.faultAt 2 = none) :
    (postRepository.Get w id).1 =
      match postRepository.selectRow w.rows id with
      | some r => (some r, none)
      | none => (none, some .ErrNoRows) := by
  rw [postRepo_Get_eq]
  simp only [h0, h1, h2]
  cases hc : cacheLookup (postKey id) w.cache with
  | some c => simp [h id c hc]
  | none => cases postRepository.selectRow w.rows id <;> rfl

/-- An empty cache is coherent with every table. -/
theorem postRepo_coherent_empty (w : World Post) (h : w.cache = []) :
    postRepository.coherent w := by
  intro id c hl
  rw [h] at hl
  exact absurd hl (by simp [cacheLookup])

/-- A `Create` that returns, for a fresh identifier with no cache entry, returns the
inserted row. -/
theorem postRepo_create_ok (w : World Post) (e e' : Post)
    (hfresh : postRepository.selectRow w.rows w.nextID = none)
    (hc : cacheLookup (postKey w.nextID) w.cache = none)
    (hok : (postRepository.Create w e).1 = .returned (none, e')) :
    e' = postRepository.insertedRow w.nextID e := by
  revert hok
  rw [postRepo_Create_eq]
  cases w.faultAt 0 with
  | some m => simp
  | none =>
    cases w.faultAt 1 with
    | some m => simp
    | none =>
      simp only []
      rw [postRepo_Get_eq]
      simp only [inserted_faultAt, inserted_cache, inserted_rows, hc,
        postRepo_selectRow_append_fresh w.rows w.nextID
          (postRepository.insertedRow w.nextID e) hfresh rfl]
      cases w.faultAt 2 <;> cases w.faultAt 3 <;> cases w.faultAt 4 <;> simp <;>
        exact fun h => h.symm

/-- On a coherent cache a successful `Get` returns the row of the table. -/
theorem postRepo_Get_ok_row (w : World Post) (id : Int) (c : Post)
    (h : (postRepository.Get w id).1 = (some c, none))
    (hcoh : postRepository.coherent w) :
    postRepository.selectRow w.rows id = some c := by
  revert h
  rw [postRepo_Get_eq]
  cases w.faultAt 0 with
  | some m => simp
  | none =>
    cases hc : cacheLookup (postKey id) w.cache with
    | some c' =>
      simp only [Prod.mk.injEq, Option.some.injEq, and_true]
      intro h
      rw [← h]
      exact hcoh id c' hc
    | none =>
      cases w.faultAt 1 with
      | some m => simp
      | none =>
        cases postRepository.selectRow w.rows id with
        | none => simp
        | some r => cases w.faultAt 2 <;> simp

/-- An `Update` of a stored identifier, its five calls answered, returns the row with the
new values. -/
theorem postRepo_update_succeeds (w : World Post) (e r : Post)
    (hr : postRepository.selectRow w.rows e.ID = some r)
    (h0 : w.faultAt 0 = none) (h1 : w.faultAt 1 = none) (h2 : w.faultAt 2 = none)
    (h3 : w.faultAt 3 = none) (h4 : w.faultAt 4 = none) :
    (postRepository.Update w e).1 =
      .returned (none,
        { r with Title := e.Title, Body := e.Body,
                 UpdatedAt := { Time := e.UpdatedAt.Time, Valid := true } }) := by
  rw [postRepo_Update_eq]
  simp only [h0, h1]
  rw [postRepo_Get_cold _ e.ID
    { r with Title := e.Title, Body := e.Body,
             UpdatedAt := { Time := e.UpdatedAt.Time, Valid := true } }
    (by simp [postRepo_selectRow_updatedRows, hr]) (by simp [cacheLookup_erase_self])
    (by simpa using h2) (by simpa using h3) (by simpa using h4)]

/-! ## `List` and the cache -/

/-- `List` with another cache: the same result, and that cache left as it is. -/
theorem commentRepo_List_withCache (w : World Comment) (c : List (String × Comment))
    (limit offset post_id : Int) :
    commentRepository.List (w.withCache c) limit offset post_id =
      ((commentRepository.List w limit offset post_id).1,
        (commentRepository.List w limit offset post_id).2.withCache c) := by
  have hstep : (w.withCache c).step .sqlQuery = (w.step .sqlQuery).withCache c := rfl
  simp only [commentRepository.List, call_eq, withCache_faultAt, hstep]
  cases w.faultAt 0 with
  | some m => rfl
  | none =>
    simp only [Option.map_none', withCache_rows, step_rows]
    cases limitOffset limit offset
        (List.filter (fun r => decide (r.PostID = post_id)) w.rows) with
    | error e => rfl
    | ok rs => exact scanRows_withCache _ c rs

/-- `List` leaves table and cache as they are; it issues the query and row scans. -/
theorem commentRepo_List_frame (w : World Comment) (limit offset post_id : Int) :
    (commentRepository.List w limit offset post_id).2.rows = w.rows ∧
      (commentRepository.List w limit offset post_id).2.cache = w.cache ∧
      ∃ n, (commentRepository.List w limit offset post_id).2.trace =
        w.trace ++ Event.sqlQuery :: List.replicate n Event.sqlScan := by
  simp only [commentRepository.List, call_eq]
  cases w.faultAt 0 with
  | some m => exact ⟨rfl, rfl, 0, by simp⟩
  | none =>
    simp only [Option.map_none', step_rows]
    cases limitOffset limit offset
        (List.filter (fun r => decide (r.PostID = post_id)) w.rows) with
    | error e => exact ⟨rfl, rfl, 0, by simp⟩
    | ok rs =>
      obtain ⟨h1, h2, n, h3⟩ := scanRows_frame (w.step .sqlQuery) rs
      exact ⟨h1, h2, n, by simp [h3]⟩

/-- `List` with another cache: the same result, and that cache left as it is. -/
theorem postRepo_List_withCache (like : String → String → Bool) (w : World Post)
    (c : List (String × Post)) (limit offset : Int) (title : String) :
    postRepository.List like (w.withCache c) limit offset title =
      ((postRepository.List like w limit offset title).1,
        (postRepository.List like w limit offset title).2.withCache c) := by
  have hstep : (w.withCache c).step .sqlQuery = (w.step .sqlQuery).withCache c := rfl
  simp only [postRepository.List, call_eq, withCache_faultAt, hstep]
  cases w.faultAt 0 with
  | some m => rfl
  | none =>
    simp only [Option.map_none', withCache_rows, step_rows]
    cases limitOffset limit offset
        (List.filter (fun r => like ("%" ++ title ++ "%") r.Title) w.rows) with
    | error e => rfl
    | ok rs => exact scanRows_withCache _ c rs

/-- `List` leaves table and cache as they are; it issues the query and row scans. -/
theorem postRepo_List_frame (like : String → String → Bool) (w : World Post)
    (limit offset : Int) (title : String) :
    (postRepository.List like w limit offset title).2.rows = w.rows ∧
      (postRepository.List like w limit offset title).2.cache = w.cache ∧
      ∃ n, (postRepository.List like w limit offset title).2.trace =
        w.trace ++ Event.sqlQuery :: List.replicate n Event.sqlScan := by
  simp only [postRepository.List, call_eq]
  cases w.faultAt 0 with
  | some m => exact ⟨rfl, rfl, 0, by simp⟩
  | none =>
    simp only [Option.map_none', step_rows]
    cases limitOffset limit offset
        (List.filter (fun r => like ("%" ++ title ++ "%") r.Title) w.rows) with
    | error e => exact ⟨rfl, rfl, 0, by simp⟩
    | ok rs =>
      obtain ⟨h1, h2, n, h3⟩ := scanRows_frame (w.step .sqlQuery) rs
      exact ⟨h1, h2, n, by simp [h3]⟩

/-! ## The guard and the comment service -/

/-- The guard denies a principal that is absent or differs from the identifier. -/
theorem IsMe_false_of_ne (ctx : Context) (id : Int) (h : ctx.claimsID ≠ some id) :
    middleware.IsMe ctx id = false := by
  obtain ⟨_ | p⟩ := ctx
  · rfl
  · have hp : p ≠ id := fun hp => h (by simp [hp])
    simp [middleware.IsMe, middleware.GetClaimsID, hp]

/-- The guard admits exactly the principal with the given identifier. -/
theorem IsMe_iff (ctx : Context) (id : Int) :
    middleware.IsMe ctx id = true ↔ ctx.claimsID = some id := by
  obtain ⟨_ | p⟩ := ctx <;> simp [middleware.IsMe, middleware.GetClaimsID]

/-- The comment translator has two values. -/
theorem switchComment_range (e : Error) :
    commentService.switchErrCommentNotFoundOrErrServer e = .ErrCommentNotFound ∨
      commentService.switchErrCommentNotFoundOrErrServer e = .ErrServer := by
  cases e <;> simp [commentService.switchErrCommentNotFoundOrErrServer]

/-- Errors of `commentService.Get`. -/
theorem commentService_Get_errors (w : World Comment) (req : CommentGetRequest)
    (resp : Option CommentResponse) (err : Error)
    (h : (commentService.Get w req).1 = .returned (resp, some err)) :
    err = .ErrCommentNotFound ∨ err = .ErrServer := by
  revert h
  simp only [commentService.Get]
  obtain ⟨⟨_ | c, _ | e⟩, w1⟩ := commentRepository.Get w req.ID <;> simp
  all_goals
    intro _ he
    subst he
    exact switchComment_range _

/-- Errors of `commentService.Update`. -/
theorem commentService_Update_errors (w : World Comment) (ctx : Context) (now : Nat)
    (req : CommentUpdateRequest) (resp : Option CommentResponse) (err : Error)
    (h : (commentService.Update w ctx now req).1 = .returned (resp, some err)) :
    err = .ErrCommentNotFound ∨ err = .ErrUnauthorized ∨ err = .ErrServer := by
  revert h
  simp only [commentService.Update]
  obtain ⟨⟨_ | c, _ | e⟩, w1⟩ := commentRepository.Get w req.ID <;> simp
  · intro _ he
    subst he
    rcases switchComment_range e with h | h <;> simp [h]
  · cases middleware.IsMe ctx c.AccountID
    · simp
      intro _ he
      simp [← he]
    · simp
      obtain ⟨u, w2⟩ := commentRepository.Update w1
        { c with Body := req.Body, UpdatedAt := { Time := now, Valid := c.UpdatedAt.Valid } }
      rcases u with ⟨_ | e2, c3⟩ | _ <;> simp
      intro _ he
      subst he
      rcases switchComment_range e2 with h | h <;> simp [h]
  · intro _ he
    subst he
    rcases switchComment_range e with h | h <;> simp [h]

/-- Errors of `commentService.Delete`. -/
theorem commentService_Delete_errors (w : World Comment) (ctx : Context)
    (req : CommentDeleteRequest) (err : Error)
    (h : (commentService.Delete w ctx req).1 = .returned (some err)) :
    err = .ErrCommentNotFound ∨ err = .ErrUnauthorized ∨ err = .ErrServer := by
  revert h
  simp only [commentService.Delete]
  obtain ⟨⟨_ | c, _ | e⟩, w1⟩ := commentRepository.Get w req.ID <;> simp
  · intro he
    subst he
    rcases switchComment_range e with h | h <;> simp [h]
  · cases middleware.IsMe ctx c.AccountID
    · simp
      intro he
      simp [← he]
    · simp
      obtain ⟨_ | e2, w2⟩ := commentRepository.Delete w1 req.ID <;> simp
      intro he
      subst he
      rcases switchComment_range e2 with h | h <;> simp [h]
  · intro he
    subst he
    rcases switchComment_range e with h | h <;> simp [h]

/-- A response of `commentService.Update` carries the requested body, the time of the
update and the other columns of the stored row. -/
theorem commentService_Update_ok (w : World Comment) (ctx : Context) (now : Nat)
    (req : CommentUpdateRequest) (resp : CommentResponse)
    (hok : (commentService.Update w ctx now req).1 = .returned (some resp, none)) :
    ∃ c r, (commentRepository.Get w req.ID).1 = (some c, none) ∧
      middleware.IsMe ctx c.AccountID = true ∧
      commentRepository.selectRow w.rows c.ID = some r ∧
      resp.Body = req.Body ∧ resp.UpdatedAt = some now ∧ resp.ID = r.ID ∧
      resp.AccountID = r.AccountID ∧ resp.PostID = r.PostID ∧
      resp.CreatedAt = r.CreatedAt := by
  revert hok
  simp only [commentService.Update]
  have hrows := commentRepo_Get_rows w req.ID
  revert hrows
  generalize commentRepository.Get w req.ID = g
  obtain ⟨⟨_ | c, _ | e⟩, w1⟩ := g
  · intro _ hok; simp at hok
  · intro _ hok; simp at hok
  · intro hrows
    simp only at hrows
    cases hme : middleware.IsMe ctx c.AccountID
    · intro hok; simp [hme] at hok
    · simp only [hme, Bool.not_true, Bool.false_eq_true, if_false]
      have hu := fun e' => commentRepo_update_ok w1
        { c with Body := req.Body, UpdatedAt := { Time := now, Valid := c.UpdatedAt.Valid } }
        e'
      revert hu
      generalize commentRepository.Update w1 _ = u
      obtain ⟨u1, w2⟩ := u
      rcases u1 with ⟨_ | e2, c3⟩ | _
      · intro hu hresp
        obtain ⟨_, _, r, hr, hc3⟩ := hu c3 rfl
        simp at hresp
        simp only at hr
        rw [hrows] at hr
        refine ⟨c, r, rfl, hme, hr, ?_⟩
        rw [← hresp, hc3]
        simp [NewCommentResponse]
      · intro _ hresp
        simp at hresp
      · intro _ hresp
        simp at hresp
  · intro _ hok; simp at hok

/-- `commentService.Update` by the owner on a stored comment, the five calls of the
repository `Update` answered, returns the response built from the stored row. -/
theorem commentService_Update_succeeds (w : World Comment) (ctx : Context) (now : Nat)
    (req : CommentUpdateRequest) (c r : Comment)
    (hget : (commentRepository.Get w req.ID).1 = (some c, none))
    (hme : middleware.IsMe ctx c.AccountID = true)
    (hr : commentRepository.selectRow w.rows c.ID = some r)
    (h0 : (commentRepository.Get w req.ID).2.faultAt 0 = none)
    (h1 : (commentRepository.Get w req.ID).2.faultAt 1 = none)
    (h2 : (commentRepository.Get w req.ID).2.faultAt 2 = none)
    (h3 : (commentRepository.Get w req.ID).2.faultAt 3 = none)
    (h4 : (commentRepository.Get w req.ID).2.faultAt 4 = none) :
    (commentService.Update w ctx now req).1 =
      .returned (some { ID := r.ID, Body := req.Body, CreatedAt := r.CreatedAt,
                        UpdatedAt := some now, AccountID := r.AccountID,
                        PostID := r.PostID }, none) := by
  have hrows := commentRepo_Get_rows w req.ID
  simp only [commentService.Update]
  revert hget hrows h0 h1 h2 h3 h4
  generalize commentRepository.Get w req.ID = g
  obtain ⟨g1, w1⟩ := g
  intro hget h0 h1 h2 h3 h4 hrows
  simp only at hget hrows h0 h1 h2 h3 h4
  subst hget
  have hu := commentRepo_update_succeeds w1
    { c with Body := req.Body, UpdatedAt := { Time := now, Valid := c.UpdatedAt.Valid } } r
    (by rw [hrows]; exact hr) h0 h1 h2 h3 h4
  simp only [hme, Bool.not_true, Bool.false_eq_true, if_false]
  revert hu
  generalize commentRepository.Update w1 _ = u
  obtain ⟨u1, w2⟩ := u
  intro hu
  simp only at hu
  subst hu
  simp [NewCommentResponse]

/-- `validation.Struct` passes when no required field holds its zero value. -/
theorem validation_Struct_ok (required : List (String × Bool))
    (h : ∀ f ∈ required, f.2 = false) : validation.Struct required = none := by
  have : required.find? (fun f => f.2) = none := by
    rw [List.find?_eq_none]
    intro f hf
    simp [h f hf]
  simp [validation.Struct, this]

/-! ## Claims -/

/-- C1: for the comment and the post repository, after a successful `Update(e)` a `Get`
of `e.ID` that follows immediately returns the row as that `Update` wrote it (the row of
the table, with the new values) once its cache read is answered, and under any fault it
returns no other entity, whatever the cache held before; after a successful `Delete(id)`
a `Get` of `id` that follows immediately returns no entity and, its two reads answered,
fails with not-found. -/
theorem get_after_mutation (w : World Comment) (e e' : Comment) (id : Int)
    (v : World Post) (p p' : Post) (pid : Int) :
    ((commentRepository.Update w e).1 = .returned (none, e') →
      ((commentRepository.Update w e).2.faultAt 0 = none →
          (commentRepository.Get (commentRepository.Update w e).2 e.ID).1 = (some e', none)) ∧
        (∀ x, (commentRepository.Get (commentRepository.Update w e).2 e.ID).1.1 = some x →
          x = e') ∧
        commentRepository.selectRow (commentRepository.Update w e).2.rows e.ID = some e' ∧
        ∃ r, commentRepository.selectRow w.rows e.ID = some r ∧
          e' = { r with Body := e.Body,
                        UpdatedAt := { Time := e.UpdatedAt.Time, Valid := true } }) ∧
    ((commentRepository.Delete w id).1 = none →
      (commentRepository.Get (commentRepository.Delete w id).2 id).1.1 = none ∧
        ((commentRepository.Delete w id).2.faultAt 0 = none →
          (commentRepository.Delete w id).2.faultAt 1 = none →
          (commentRepository.Get (commentRepository.Delete w id).2 id).1 =
            (none, some .ErrNoRows))) ∧
    ((postRepository.Update v p).1 = .returned (none, p') →
      ((postRepository.Update v p).2.faultAt 0 = none →
          (postRepository.Get (postRepository.Update v p).2 p.ID).1 = (some p', none)) ∧
        (∀ x, (postRepository.Get (postRepository.Update v p).2 p.ID).1.1 = some x →
          x = p') ∧
        postRepository.selectRow (postRepository.Update v p).2.rows p.ID = some p' ∧
        ∃ r, postRepository.selectRow v.rows p.ID = some r ∧
          p' = { r with Title := p.Title, Body := p.Body,
                        UpdatedAt := { Time := p.UpdatedAt.Time, Valid := true } }) ∧
    ((postRepository.Delete v pid).1 = none →
      (postRepository.Get (postRepository.Delete v pid).2 pid).1.1 = none ∧
        ((postRepository.Delete v pid).2.faultAt 0 = none →
          (postRepository.Delete v pid).2.faultAt 1 = none →
          (postRepository.Get (postRepository.Delete v pid).2 pid).1 =
            (none, some .ErrNoRows))) :=
  ⟨commentRepo_get_after_update w e e', commentRepo_get_after_delete w id,
    postRepo_get_after_update v p p', postRepo_get_after_delete v pid⟩

/-- C1 on worlds whose cache holds a stale snapshot: the comment and the post are updated
and read back, then deleted and looked for. -/
theorem get_after_mutation_witness :
    (commentRepository.Get
        (commentRepository.Update staleComments
          { sampleComment with Body := "second", UpdatedAt := { Time := 20, Valid := false } }).2
        1).1 =
      (some { sampleComment with Body := "second", UpdatedAt := { Time := 20, Valid := true } },
        none) ∧
    (commentRepository.Get (commentRepository.Delete staleComments 1).2 1).1 =
      (none, some .ErrNoRows) ∧
    (postRepository.Get
        (postRepository.Update stalePosts
          { samplePost with Title := "C", UpdatedAt := { Time := 20, Valid := false } }).2
        1).1 =
      (some { samplePost with Title := "C", UpdatedAt := { Time := 20, Valid := true } },
        none) ∧
    (postRepository.Get (postRepository.Delete stalePosts 1).2 1).1 =
      (none, some .ErrNoRows) :=
  have h := get_after_mutation staleComments
    { sampleComment with Body := "second", UpdatedAt := { Time := 20, Valid := false } }
    { sampleComment with Body := "second", UpdatedAt := { Time := 20, Valid := true } } 1
    stalePosts
    { samplePost with Title := "C", UpdatedAt := { Time := 20, Valid := false } }
    { samplePost with Title := "C", UpdatedAt := { Time := 20, Valid := true } } 1
  ⟨(h.1 (by decide)).1 (by decide),
    (h.2.1 (by decide)).2 (by decide) (by decide),
    (h.2.2.1 (by decide)).1 (by decide),
    (h.2.2.2 (by decide)).2 (by decide) (by decide)⟩

/-- C2: for the comment and the post repository, when the table has a row for `id`, the
cache has no entry for it and the collaborators answer, the first `Get(id)` reads the
store once, returns the row and leaves it in the cache under the key of `id`; the second
`Get(id)` returns the same entity and issues one cache read and no store read. -/
theorem get_cold_then_cached (w : World Comment) (id : Int) (r : Comment)
    (v : World Post) (pid : Int) (q : Post) :
    (commentRepository.selectRow w.rows id = some r →
      cacheLookup (commentKey id) w.cache = none →
      w.faultAt 0 = none → w.faultAt 1 = none → w.faultAt 2 = none → w.faultAt 3 = none →
      (commentRepository.Get w id).1 = (some r, none) ∧
        (commentRepository.Get w id).2.trace =
          w.trace ++ [.cacheGet (commentKey id), .sqlSelect id, .cacheSet (commentKey id)] ∧
        cacheLookup (commentKey id) (commentRepository.Get w id).2.cache = some r ∧
        (commentRepository.Get (commentRepository.Get w id).2 id).1 = (some r, none) ∧
        (commentRepository.Get (commentRepository.Get w id).2 id).2.trace =
          (commentRepository.Get w id).2.trace ++ [.cacheGet (commentKey id)] ∧
        (commentRepository.Get (commentRepository.Get w id).2 id).2.cache =
          (commentRepository.Get w id).2.cache) ∧
    (postRepository.selectRow v.rows pid = some q →
      cacheLookup (postKey pid) v.cache = none →
      v.faultAt 0 = none → v.faultAt 1 = none → v.faultAt 2 = none → v.faultAt 3 = none →
      (postRepository.Get v pid).1 = (some q, none) ∧
        (postRepository.Get v pid).2.trace =
          v.trace ++ [.cacheGet (postKey pid), .sqlSelect pid, .cacheSet (postKey pid)] ∧
        cacheLookup (postKey pid) (postRepository.Get v pid).2.cache = some q ∧
        (postRepository.Get (postRepository.Get v pid).2 pid).1 = (some q, none) ∧
        (postRepository.Get (postRepository.Get v pid).2 pid).2.trace =
          (postRepository.Get v pid).2.trace ++ [.cacheGet (postKey pid)] ∧
        (postRepository.Get (postRepository.Get v pid).2 pid).2.cache =
          (postRepository.Get v pid).2.cache) := by
  refine ⟨fun hr hc h0 h1 h2 h3 => ?_, fun hr hc h0 h1 h2 h3 => ?_⟩
  · rw [commentRepo_Get_cold w id r hr hc h0 h1 h2]
    rw [commentRepo_Get_hit _ id r (by simpa using h3) (by simp [cacheLookup])]
    simp [cacheLookup]
  · rw [postRepo_Get_cold v pid q hr hc h0 h1 h2]
    rw [postRepo_Get_hit _ pid q (by simpa using h3) (by simp [cacheLookup])]
    simp [cacheLookup]

/-- C2 at a cold cache holding one comment and one post. -/
theorem get_cold_then_cached_witness :
    ((commentRepository.Get coldComments 1).1 = (some sampleComment, none) ∧
      (commentRepository.Get (commentRepository.Get coldComments 1).2 1).1 =
        (some sampleComment, none) ∧
      (commentRepository.Get (commentRepository.Get coldComments 1).2 1).2.trace =
        (commentRepository.Get coldComments 1).2.trace ++ [.cacheGet (commentKey 1)]) ∧
    ((postRepository.Get coldPosts 1).1 = (some samplePost, none) ∧
      (postRepository.Get (postRepository.Get coldPosts 1).2 1).1 = (some samplePost, none) ∧
      (postRepository.Get (postRepository.Get coldPosts 1).2 1).2.trace =
        (postRepository.Get coldPosts 1).2.trace ++ [.cacheGet (postKey 1)]) :=
  have h := get_cold_then_cached coldComments 1 sampleComment coldPosts 1 samplePost
  have hc := h.1 (by decide) (by decide) (by decide) (by decide) (by decide) (by decide)
  have hp := h.2 (by decide) (by decide) (by decide) (by decide) (by decide) (by decide)
  ⟨⟨hc.1, hc.2.2.2.1, hc.2.2.2.2.1⟩, ⟨hp.1, hp.2.2.2.1, hp.2.2.2.2.1⟩⟩

/-- C3: for every comment `c` that the repository serves under `c.ID` and every context
whose principal is absent or differs from `c.AccountID`, `commentService.Update` and
`commentService.Delete` on `c.ID` return `ErrUnauthorized`; the world they leave is the
one left by their `Get`: the table is unchanged, the calls issued are the reads of that
`Get` (no `UPDATE`, no `DELETE`, no cache invalidation), and a `Get` that follows shows
the same comment. -/
theorem comment_guard_denies (w : World Comment) (ctx : Context) (now : Nat) (c : Comment)
    (body : String)
    (hserved : (commentRepository.Get w c.ID).1 = (some c, none))
    (hp : ctx.claimsID ≠ some c.AccountID) :
    commentService.Update w ctx now { ID := c.ID, Body := body } =
        (.returned (none, some .ErrUnauthorized), (commentRepository.Get w c.ID).2) ∧
      commentService.Delete w ctx { ID := c.ID } =
        (.returned (some .ErrUnauthorized), (commentRepository.Get w c.ID).2) ∧
      (commentRepository.Get w c.ID).2.rows = w.rows ∧
      ((commentRepository.Get w c.ID).2.trace = w.trace ++ [.cacheGet (commentKey c.ID)] ∨
        (commentRepository.Get w c.ID).2.trace =
          w.trace ++ [.cacheGet (commentKey c.ID), .sqlSelect c.ID,
            .cacheSet (commentKey c.ID)]) ∧
      ((commentRepository.Get w c.ID).2.faultAt 0 = none →
        (commentRepository.Get (commentRepository.Get w c.ID).2 c.ID).1 = (some c, none)) := by
  have hme := IsMe_false_of_ne ctx c.AccountID hp
  refine ⟨?_, ?_, commentRepo_Get_rows w c.ID, commentRepo_Get_ok_trace w c.ID c hserved, ?_⟩
  · simp only [commentService.Update]
    revert hserved
    generalize commentRepository.Get w c.ID = g
    obtain ⟨g1, w1⟩ := g
    intro hserved
    simp only at hserved
    subst hserved
    simp [hme]
  · simp only [commentService.Delete]
    revert hserved
    generalize commentRepository.Get w c.ID = g
    obtain ⟨g1, w1⟩ := g
    intro hserved
    simp only at hserved
    subst hserved
    simp [hme]
  · intro hf
    rw [commentRepo_Get_hit _ c.ID c hf (commentRepo_Get_ok_cached w c.ID c hserved)]

/-- C3 for principal 8 and for no principal on the comment of account 7. -/
theorem comment_guard_denies_witness :
    (commentService.Update coldComments { claimsID := some 8 } 20 { ID := 1, Body := "mine" }).1 =
        .returned (none, some .ErrUnauthorized) ∧
      (commentService.Delete coldComments { claimsID := none } { ID := 1 }).1 =
        .returned (some .ErrUnauthorized) ∧
      (commentRepository.Get
        (commentService.Update coldComments { claimsID := some 8 } 20
          { ID := 1, Body := "mine" }).2 1).1 = (some sampleComment, none) :=
  have h8 := comment_guard_denies coldComments { claimsID := some 8 } 20 sampleComment "mine"
    (by decide) (by decide)
  have h0 := comment_guard_denies coldComments { claimsID := none } 20 sampleComment "mine"
    (by decide) (by decide)
  ⟨congrArg Prod.fst h8.1, congrArg Prod.fst h0.2.1,
    h8.1 ▸ h8.2.2.2.2 (by decide)⟩

/-- C4: for every `id` with no row in the table and no entry in the cache, with the
cache read and the store read answered, `commentService.Get`, `Update` and `Delete`
return `ErrCommentNotFound`; the calls they issue are one cache read and one store read,
and the table is unchanged. -/
theorem comment_absent_not_found (w : World Comment) (ctx : Context) (now : Nat) (id : Int)
    (body : String)
    (hr : commentRepository.selectRow w.rows id = none)
    (hc : cacheLookup (commentKey id) w.cache = none)
    (h0 : w.faultAt 0 = none) (h1 : w.faultAt 1 = none) :
    commentService.Get w { ID := id } =
        (.returned (none, some .ErrCommentNotFound),
          (w.step (.cacheGet (commentKey id))).step (.sqlSelect id)) ∧
      commentService.Update w ctx now { ID := id, Body := body } =
        (.returned (none, some .ErrCommentNotFound),
          (w.step (.cacheGet (commentKey id))).step (.sqlSelect id)) ∧
      commentService.Delete w ctx { ID := id } =
        (.returned (some .ErrCommentNotFound),
          (w.step (.cacheGet (commentKey id))).step (.sqlSelect id)) ∧
      ((w.step (.cacheGet (commentKey id))).step (.sqlSelect id)).rows = w.rows ∧
      ((w.step (.cacheGet (commentKey id))).step (.sqlSelect id)).trace =
        w.trace ++ [.cacheGet (commentKey id), .sqlSelect id] := by
  have hg := commentRepo_Get_absent w id hr hc h0 h1
  refine ⟨?_, ?_, ?_, rfl, by simp⟩
  · simp [commentService.Get, hg, commentService.switchErrCommentNotFoundOrErrServer]
  · simp [commentService.Update, hg, commentService.switchErrCommentNotFoundOrErrServer]
  · simp [commentService.Delete, hg, commentService.switchErrCommentNotFoundOrErrServer]

/-- C4 for identifier 5 on the empty table. -/
theorem comment_absent_not_found_witness :
    (commentService.Get emptyComments { ID := 5 }).1 =
        .returned (none, some .ErrCommentNotFound) ∧
      (commentService.Update emptyComments { claimsID := some 7 } 20
        { ID := 5, Body := "x" }).1 = .returned (none, some .ErrCommentNotFound) ∧
      (commentService.Delete emptyComments { claimsID := some 7 } { ID := 5 }).1 =
        .returned (some .ErrCommentNotFound) :=
  have h := comment_absent_not_found emptyComments { claimsID := some 7 } 20 5 "x"
    (by decide) (by decide) (by decide) (by decide)
  ⟨congrArg Prod.fst h.1, congrArg Prod.fst h.2.1, congrArg Prod.fst h.2.2.1⟩

/-- C5: the two translators send `sql.ErrNoRows` to the not-found error of their
resource and every other error to `ErrServer`; so every error that
`commentService.Get`, `Update` or `Delete` returns is `ErrCommentNotFound`,
`ErrUnauthorized` or `ErrServer`, never an error of the repository. -/
theorem service_errors_translated :
    commentService.switchErrCommentNotFoundOrErrServer .ErrNoRows = .ErrCommentNotFound ∧
    accountService.switchErrAccountNotFoundOrErrServer .ErrNoRows = .ErrAccountNotFound ∧
    (∀ e : Error, e ≠ .ErrNoRows →
      commentService.switchErrCommentNotFoundOrErrServer e = .ErrServer ∧
        accountService.switchErrAccountNotFoundOrErrServer e = .ErrServer) ∧
    (∀ (w : World Comment) (req : CommentGetRequest) (resp : Option CommentResponse)
        (err : Error), (commentService.Get w req).1 = .returned (resp, some err) →
      err = .ErrCommentNotFound ∨ err = .ErrUnauthorized ∨ err = .ErrServer) ∧
    (∀ (w : World Comment) (ctx : Context) (now : Nat) (req : CommentUpdateRequest)
        (resp : Option CommentResponse) (err : Error),
      (commentService.Update w ctx now req).1 = .returned (resp, some err) →
      err = .ErrCommentNotFound ∨ err = .ErrUnauthorized ∨ err = .ErrServer) ∧
    (∀ (w : World Comment) (ctx : Context) (req : CommentDeleteRequest) (err : Error),
      (commentService.Delete w ctx req).1 = .returned (some err) →
      err = .ErrCommentNotFound ∨ err = .ErrUnauthorized ∨ err = .ErrServer) := by
  refine ⟨rfl, rfl, ?_, ?_, commentService_Update_errors, commentService_Delete_errors⟩
  · intro e he
    cases e <;> simp_all [commentService.switchErrCommentNotFoundOrErrServer,
      accountService.switchErrAccountNotFoundOrErrServer]
  · intro w req resp err h
    rcases commentService_Get_errors w req resp err h with h1 | h1 <;> simp [h1]

/-- C5 with the cache unreachable: the opaque failure becomes `ErrServer`. -/
theorem service_errors_translated_witness :
    commentService.switchErrCommentNotFoundOrErrServer (.infra "redis: connection refused") =
        .ErrServer ∧
      (commentService.Get { coldComments with faults := [some "redis: connection refused"] }
        { ID := 1 }).1 = .returned (none, some .ErrServer) ∧
      (Error.ErrServer = .ErrCommentNotFound ∨ Error.ErrServer = .ErrUnauthorized ∨
        Error.ErrServer = .ErrServer) :=
  ⟨(service_errors_translated.2.2.1 (.infra "redis: connection refused") (by decide)).1,
    by decide,
    service_errors_translated.2.2.2.1
      { coldComments with faults := [some "redis: connection refused"] } { ID := 1 } none
      .ErrServer (by decide)⟩

/-- C6, as stated, fails: with the cache unreachable, `Update` has written the row when it
returns the error of the invalidation, for comments and for posts. -/
theorem update_error_after_write :
    ((commentRepository.Update cacheDownComments { sampleComment with Body := "second" }).1 =
        .returned (some (.infra "redis: connection refused"),
          { sampleComment with Body := "second" }) ∧
      (commentRepository.Update cacheDownComments
          { sampleComment with Body := "second" }).2.rows ≠ cacheDownComments.rows) ∧
    ((postRepository.Update cacheDownPosts { samplePost with Title := "C" }).1 =
        .returned (some (.infra "redis: connection refused"),
          { samplePost with Title := "C" }) ∧
      (postRepository.Update cacheDownPosts { samplePost with Title := "C" }).2.rows ≠
        cacheDownPosts.rows) := by
  decide

/-- C6, amended: when the store write of `Create` or `Update` (the `INSERT` or `UPDATE`
statement, the first call) fails, the call returns that error and table, counter and
cache are as before; once the store write went through, the written row is in the table
however the call ends. -/
theorem store_write_fault_atomic (w : World Comment) (e : Comment) (v : World Post)
    (p : Post) :
    (∀ m, w.faultAt 0 = some m →
      (commentRepository.Create w e).1 = .returned (some (.infra m), e) ∧
        (commentRepository.Create w e).2.rows = w.rows ∧
        (commentRepository.Create w e).2.nextID = w.nextID ∧
        (commentRepository.Create w e).2.cache = w.cache) ∧
    (∀ m, w.faultAt 0 = some m →
      (commentRepository.Update w e).1 = .returned (some (.infra m), e) ∧
        (commentRepository.Update w e).2.rows = w.rows ∧
        (commentRepository.Update w e).2.nextID = w.nextID ∧
        (commentRepository.Update w e).2.cache = w.cache) ∧
    (∀ m, v.faultAt 0 = some m →
      (postRepository.Create v p).1 = .returned (some (.infra m), p) ∧
        (postRepository.Create v p).2.rows = v.rows ∧
        (postRepository.Create v p).2.nextID = v.nextID ∧
        (postRepository.Create v p).2.cache = v.cache) ∧
    (∀ m, v.faultAt 0 = some m →
      (postRepository.Update v p).1 = .returned (some (.infra m), p) ∧
        (postRepository.Update v p).2.rows = v.rows ∧
        (postRepository.Update v p).2.nextID = v.nextID ∧
        (postRepository.Update v p).2.cache = v.cache) ∧
    (w.faultAt 0 = none →
      (commentRepository.Create w e).2.rows =
          w.rows ++ [commentRepository.insertedRow w.nextID e] ∧
        (commentRepository.Update w e).2.rows = commentRepository.updatedRows w.rows e) ∧
    (v.faultAt 0 = none →
      (postRepository.Create v p).2.rows = v.rows ++ [postRepository.insertedRow v.nextID p] ∧
        (postRepository.Update v p).2.rows = postRepository.updatedRows v.rows p) := by
  refine ⟨fun m h => ?_, fun m h => ?_, fun m h => ?_, fun m h => ?_, fun h => ?_, fun h => ?_⟩
  · rw [commentRepo_create_write_fault w e m h]; exact ⟨rfl, rfl, rfl, rfl⟩
  · rw [commentRepo_update_write_fault w e m h]; exact ⟨rfl, rfl, rfl, rfl⟩
  · rw [postRepo_create_write_fault v p m h]; exact ⟨rfl, rfl, rfl, rfl⟩
  · rw [postRepo_update_write_fault v p m h]; exact ⟨rfl, rfl, rfl, rfl⟩
  · exact ⟨commentRepo_create_written w e h, commentRepo_update_written w e h⟩
  · exact ⟨postRepo_create_written v p h, postRepo_update_written v p h⟩

/-- C6, amended, with the store unreachable: the error is returned and the table is as
before. -/
theorem store_write_fault_atomic_witness :
    ((commentRepository.Update storeDownComments { sampleComment with Body := "second" }).1 =
        .returned (some (.infra "mysql: connection refused"),
          { sampleComment with Body := "second" }) ∧
      (commentRepository.Update storeDownComments
        { sampleComment with Body := "second" }).2.rows = storeDownComments.rows) ∧
    ((postRepository.Create storeDownPosts samplePost).1 =
        .returned (some (.infra "mysql: connection refused"), samplePost) ∧
      (postRepository.Create storeDownPosts samplePost).2.rows = storeDownPosts.rows) ∧
    (commentRepository.Update cacheDownComments { sampleComment with Body := "second" }).2.rows =
      commentRepository.updatedRows cacheDownComments.rows
        { sampleComment with Body := "second" } :=
  have h := store_write_fault_atomic storeDownComments { sampleComment with Body := "second" }
    storeDownPosts samplePost
  have h2 := store_write_fault_atomic cacheDownComments { sampleComment with Body := "second" }
    storeDownPosts samplePost
  have hu := h.2.1 "mysql: connection refused" (by decide)
  have hc := h.2.2.1 "mysql: connection refused" (by decide)
  ⟨⟨hu.1, hu.2.1⟩, ⟨hc.1, hc.2.1⟩, (h2.2.2.2.2.1 (by decide)).2⟩

/-- C7, as stated, fails: `Create` on the empty world leaves a cache entry for the new
identifier, for comments and for posts. -/
theorem create_fills_cache :
    (commentRepository.Create emptyComments sampleComment).2.cache ≠ emptyComments.cache ∧
      (commentRepository.Create emptyComments sampleComment).2.cache =
        [("comment_1", sampleComment)] ∧
      (postRepository.Create emptyPosts samplePost).2.cache ≠ emptyPosts.cache ∧
      (postRepository.Create emptyPosts samplePost).2.cache = [("post_1", samplePost)] := by
  decide

/-- C7, amended: `Create` leaves the cache entry under every key other than the key of
the new identifier as it was; its re-read goes through `Get`, so a `Create` answered
without fault, for a fresh identifier with no cache entry, returns the inserted row and
has put it in the cache under the key of the new identifier, the calls issued being the
insert, `LastInsertId` and the cache read, store read and cache write of `Get`. -/
theorem create_cache_effect (w : World Comment) (e : Comment) (v : World Post) (p : Post) :
    (∀ k, k ≠ commentKey w.nextID →
      cacheLookup k (commentRepository.Create w e).2.cache = cacheLookup k w.cache) ∧
    (commentRepository.selectRow w.rows w.nextID = none →
      cacheLookup (commentKey w.nextID) w.cache = none →
      w.faultAt 0 = none → w.faultAt 1 = none → w.faultAt 2 = none → w.faultAt 3 = none →
      w.faultAt 4 = none →
      (commentRepository.Create w e).1 =
          .returned (none, commentRepository.insertedRow w.nextID e) ∧
        cacheLookup (commentKey w.nextID) (commentRepository.Create w e).2.cache =
          some (commentRepository.insertedRow w.nextID e) ∧
        (commentRepository.Create w e).2.trace =
          w.trace ++ [.sqlInsert, .sqlLastInsertId, .cacheGet (commentKey w.nextID),
            .sqlSelect w.nextID, .cacheSet (commentKey w.nextID)]) ∧
    (∀ k, k ≠ postKey v.nextID →
      cacheLookup k (postRepository.Create v p).2.cache = cacheLookup k v.cache) ∧
    (postRepository.selectRow v.rows v.nextID = none →
      cacheLookup (postKey v.nextID) v.cache = none →
      v.faultAt 0 = none → v.faultAt 1 = none → v.faultAt 2 = none → v.faultAt 3 = none →
      v.faultAt 4 = none →
      (postRepository.Create v p).1 = .returned (none, postRepository.insertedRow v.nextID p) ∧
        cacheLookup (postKey v.nextID) (postRepository.Create v p).2.cache =
          some (postRepository.insertedRow v.nextID p) ∧
        (postRepository.Create v p).2.trace =
          v.trace ++ [.sqlInsert, .sqlLastInsertId, .cacheGet (postKey v.nextID),
            .sqlSelect v.nextID, .cacheSet (postKey v.nextID)]) :=
  ⟨fun k hk => commentRepo_create_cache_other w e k hk, commentRepo_create_populates w e,
    fun k hk => postRepo_create_cache_other v p k hk, postRepo_create_populates v p⟩

/-- C7, amended, on the warm worlds: the entry of identifier 1 stays, the new identifier 2
gets its entry. -/
theorem create_cache_effect_witness :
    (cacheLookup "comment_1" (commentRepository.Create warmComments sampleComment).2.cache =
        cacheLookup "comment_1" warmComments.cache ∧
      cacheLookup (commentKey 2) (commentRepository.Create warmComments sampleComment).2.cache =
        some (commentRepository.insertedRow 2 sampleComment)) ∧
    (cacheLookup "post_1" (postRepository.Create warmPosts samplePost).2.cache =
        cacheLookup "post_1" warmPosts.cache ∧
      cacheLookup (postKey 2) (postRepository.Create warmPosts samplePost).2.cache =
        some (postRepository.insertedRow 2 samplePost)) :=
  have h := create_cache_effect warmComments sampleComment warmPosts samplePost
  ⟨⟨h.1 "comment_1" (by decide),
      (h.2.1 (by decide) (by decide) (by decide) (by decide) (by decide) (by decide)
        (by decide)).2.1⟩,
    ⟨h.2.2.1 "post_1" (by decide),
      (h.2.2.2 (by decide) (by decide) (by decide) (by decide) (by decide) (by decide)
        (by decide)).2.1⟩⟩

/-- C8 on the code: `Update` of identifier 7 on the empty table re-reads `(nil,
sql.ErrNoRows)` and panics on the nil entity instead of returning the error; `Create`
panics the same way when the cache read of its re-read fails, and reports success when
its re-read returned the row together with the error of the cache write. -/
theorem reread_failure_mishandled :
    (commentRepository.Get
        (emptyComments.invalidated [] (.sqlUpdate 7) (commentKey 7)) 7).1 =
      (none, some .ErrNoRows) ∧
    (commentRepository.Update emptyComments { sampleComment with ID := 7 }).1 = .panicked ∧
    (postRepository.Update emptyPosts { samplePost with ID := 7 }).1 = .panicked ∧
    (commentRepository.Create rereadDownComments sampleComment).1 = .panicked ∧
    (commentRepository.Get
        (cacheSetDownComments.inserted (commentRepository.insertedRow 1 sampleComment)) 1).1 =
      (some sampleComment, some (.infra "redis: connection refused")) ∧
    (commentRepository.Create cacheSetDownComments sampleComment).1 =
      .returned (none, sampleComment) := by
  decide

/-- C9: `List` of the comment and of the post repository, run with any other cache
contents `c`, gives the same result and leaves `c` as it is; it leaves the table as it
is and the calls it issues are the query and row scans, none to the cache. -/
theorem list_bypasses_cache (like : String → String → Bool) (w : World Comment)
    (c : List (String × Comment)) (limit offset post_id : Int) (v : World Post)
    (d : List (String × Post)) (title : String) :
    (commentRepository.List (w.withCache c) limit offset post_id =
        ((commentRepository.List w limit offset post_id).1,
          (commentRepository.List w limit offset post_id).2.withCache c) ∧
      (commentRepository.List w limit offset post_id).2.cache = w.cache ∧
      (commentRepository.List w limit offset post_id).2.rows = w.rows ∧
      ∃ n, (commentRepository.List w limit offset post_id).2.trace =
        w.trace ++ Event.sqlQuery :: List.replicate n Event.sqlScan) ∧
    (postRepository.List like (v.withCache d) limit offset title =
        ((postRepository.List like v limit offset title).1,
          (postRepository.List like v limit offset title).2.withCache d) ∧
      (postRepository.List like v limit offset title).2.cache = v.cache ∧
      (postRepository.List like v limit offset title).2.rows = v.rows ∧
      ∃ n, (postRepository.List like v limit offset title).2.trace =
        v.trace ++ Event.sqlQuery :: List.replicate n Event.sqlScan) :=
  ⟨⟨commentRepo_List_withCache w c limit offset post_id,
      (commentRepo_List_frame w limit offset post_id).2.1,
      (commentRepo_List_frame w limit offset post_id).1,
      (commentRepo_List_frame w limit offset post_id).2.2⟩,
    ⟨postRepo_List_withCache like v d limit offset title,
      (postRepo_List_frame like v limit offset title).2.1,
      (postRepo_List_frame like v limit offset title).1,
      (postRepo_List_frame like v limit offset title).2.2⟩⟩

/-- C10: for every account repository, every account identifier and every context whose
principal is absent or differs from it, `accountService.Update`, `UpdatePassword` and
`Delete` return `ErrUnauthorized` and hand back the state of the collaborators as they
received it: no operation of the repository ran. -/
theorem account_guard_denies {σ ρ : Type} (repo : AccountRepository σ) (env : AccountEnv ρ)
    (s : σ) (ctx : Context) (now : Nat) (id : Int) (h : ctx.claimsID ≠ some id) :
    (∀ name email, accountService.Update repo env s ctx now
        { ID := id, Name := name, Email := email } =
      (.returned (none, some .ErrUnauthorized), s)) ∧
    (∀ old new, accountService.UpdatePassword repo env s ctx now
        { ID := id, OldPassword := old, NewPassword := new } =
      (.returned (none, some .ErrUnauthorized), s)) ∧
    accountService.Delete repo s ctx { ID := id } = (some .ErrUnauthorized, s) := by
  have hme := IsMe_false_of_ne ctx id h
  refine ⟨fun name email => ?_, fun old new => ?_, ?_⟩
  · simp [accountService.Update, hme]
  · simp [accountService.UpdatePassword, hme]
  · simp [accountService.Delete, hme]

/-- C10 on the counting repository: principal 8 and no principal act on account 7 and
the call counter stays at 0. -/
theorem account_guard_denies_witness :
    accountService.Update countingAccounts plainEnv 0 { claimsID := some 8 } 20
        { ID := 7, Name := "n", Email := "e" } =
      (.returned (none, some .ErrUnauthorized), 0) ∧
    accountService.UpdatePassword countingAccounts plainEnv 0 { claimsID := none } 20
        { ID := 7, OldPassword := "o", NewPassword := "p" } =
      (.returned (none, some .ErrUnauthorized), 0) ∧
    accountService.Delete countingAccounts 0 { claimsID := some 8 } { ID := 7 } =
      (some .ErrUnauthorized, 0) :=
  ⟨(account_guard_denies countingAccounts plainEnv 0 { claimsID := some 8 } 20 7
      (by decide)).1 "n" "e",
    (account_guard_denies countingAccounts plainEnv 0 { claimsID := none } 20 7
      (by decide)).2.1 "o" "p",
    (account_guard_denies countingAccounts plainEnv 0 { claimsID := some 8 } 20 7
      (by decide)).2.2⟩

/-- C11: `accountService.Create` returns `ErrEmailRegistered` when `GetByEmail` answers
without error, and the state it leaves is the one left by `GetByEmail` (the repository's
`Create` has not run); `accountService.Update`, the guard admitting, returns
`ErrEmailRegistered` in the state left by `GetByEmail` when the account found has another
identifier; when the email is unused (`sql.ErrNoRows`) or belongs to the same account it
goes on: it reads the account and calls the repository's `Update` with the new name and
email. -/
theorem email_checked_before_write {σ ρ : Type} (repo : AccountRepository σ)
    (env : AccountEnv ρ) (s s1 : σ) (ctx : Context) (now : Nat) :
    (∀ (req : AccountCreateRequest) (found : Option Account),
      repo.GetByEmail s req.Email = ((found, none), s1) →
      accountService.Create repo env s now req =
        (.returned (none, some .ErrEmailRegistered), s1)) ∧
    (∀ (req : AccountUpdateRequest) (a : Account),
      middleware.IsMe ctx req.ID = true →
      repo.GetByEmail s req.Email = ((some a, none), s1) → a.ID ≠ req.ID →
      accountService.Update repo env s ctx now req =
        (.returned (none, some .ErrEmailRegistered), s1)) ∧
    (∀ (req : AccountUpdateRequest) (found : Option Account) (account : Account) (s2 : σ),
      middleware.IsMe ctx req.ID = true →
      (repo.GetByEmail s req.Email = ((found, some .ErrNoRows), s1) ∨
        ∃ a, found = some a ∧ a.ID = req.ID ∧
          repo.GetByEmail s req.Email = ((found, none), s1)) →
      repo.Get s1 req.ID = ((some account, none), s2) →
      accountService.Update repo env s ctx now req =
        match repo.Update s2
            { account with Name := req.Name, Email := req.Email,
                           UpdatedAt := { Time := now, Valid := account.UpdatedAt.Valid } } with
        | (.panicked, s3) => (.panicked, s3)
        | (.returned (some err, _), s3) =>
          (.returned (none, some (accountService.switchErrAccountNotFoundOrErrServer err)), s3)
        | (.returned (none, account3), s3) =>
          (.returned (some (env.NewAccountResponse account3), none), s3)) := by
  refine ⟨fun req found h => ?_, fun req a hme h hne => ?_,
    fun req found account s2 hme h hget => ?_⟩
  · simp [accountService.Create, h]
  · simp [accountService.Update, hme, h, hne]
  · rcases h with h | ⟨a, rfl, ha, h⟩
    · simp [accountService.Update, hme, h, hget]
    · simp [accountService.Update, hme, h, hget, ha]

/-- C11 on the in-memory repository: the email of account 1 is refused to a new account
and to account 2, and account 1 may keep it or take an unused one. -/
theorem email_checked_before_write_witness :
    accountService.Create memoryAccounts plainEnv twoAccounts 20
        { Name := "eve", Email := "alice@example.org", Password := "e" } =
      (.returned (none, some .ErrEmailRegistered),
        { twoAccounts with calls := ["GetByEmail"] }) ∧
    accountService.Update memoryAccounts plainEnv twoAccounts { claimsID := some 2 } 20
        { ID := 2, Name := "bob", Email := "alice@example.org" } =
      (.returned (none, some .ErrEmailRegistered),
        { twoAccounts with calls := ["GetByEmail"] }) ∧
    (accountService.Update memoryAccounts plainEnv twoAccounts { claimsID := some 1 } 20
        { ID := 1, Name := "al", Email := "alice@example.org" }).2.calls =
      ["GetByEmail", "Get", "Update"] ∧
    (accountService.Update memoryAccounts plainEnv twoAccounts { claimsID := some 1 } 20
        { ID := 1, Name := "al", Email := "new@example.org" }).1 =
      .returned (some { alice with Name := "al", Email := "new@example.org",
                                   UpdatedAt := { Time := 20, Valid := false } }, none) :=
  ⟨(email_checked_before_write memoryAccounts plainEnv twoAccounts
        { twoAccounts with calls := ["GetByEmail"] } { claimsID := none } 20).1
      { Name := "eve", Email := "alice@example.org", Password := "e" } (some alice)
      (by decide),
    (email_checked_before_write memoryAccounts plainEnv twoAccounts
        { twoAccounts with calls := ["GetByEmail"] } { claimsID := some 2 } 20).2.1
      { ID := 2, Name := "bob", Email := "alice@example.org" } alice
      (by decide) (by decide) (by decide),
    congrArg (fun r => r.2.calls)
      ((email_checked_before_write memoryAccounts plainEnv twoAccounts
        { twoAccounts with calls := ["GetByEmail"] } { claimsID := some 1 } 20).2.2
      { ID := 1, Name := "al", Email := "alice@example.org" } (some alice) alice
      { twoAccounts with calls := ["GetByEmail", "Get"] }
      (by decide) (Or.inr ⟨alice, rfl, by decide, by decide⟩) (by decide)),
    congrArg Prod.fst
      ((email_checked_before_write memoryAccounts plainEnv twoAccounts
        { twoAccounts with calls := ["GetByEmail"] } { claimsID := some 1 } 20).2.2
      { ID := 1, Name := "al", Email := "new@example.org" } none alice
      { twoAccounts with calls := ["GetByEmail", "Get"] }
      (by decide) (Or.inl (by decide)) (by decide))⟩

/-- C12: when the context carries principal `p` (`GetClaimsID` answers `(p, true)`),
`commentService.Create` calls the repository's `Create` with an entity whose `AccountID`
is `p` and whose `Body` and `PostID` are those of the request; the identifier that the
store assigns being new (no row and no cache entry under it yet), every response it
returns carries `account_id = p` and the body and post of the request, and with the calls
answered it does return that response.  When the context carries no principal it returns
`ErrUnauthorized` and the world is untouched. -/
theorem create_stamps_owner (w : World Comment) (ctx : Context) (now : Nat)
    (req : CommentCreateRequest) (p : Int) :
    (middleware.GetClaimsID ctx = (p, true) →
      commentService.Create w ctx now req =
          (match commentRepository.Create w
              { ID := 0, Body := req.Body, CreatedAt := now,
                UpdatedAt := { Time := 0, Valid := false }, AccountID := p,
                PostID := req.PostID } with
            | (.panicked, w1) => (.panicked, w1)
            | (.returned (some _, _), w1) => (.returned (none, some .ErrServer), w1)
            | (.returned (none, comment1), w1) =>
              (.returned (some (NewCommentResponse comment1), none), w1)) ∧
        (commentRepository.selectRow w.rows w.nextID = none →
          cacheLookup (commentKey w.nextID) w.cache = none →
          (w.faultAt 0 = none → w.faultAt 1 = none → w.faultAt 2 = none →
            w.faultAt 3 = none → w.faultAt 4 = none →
            (commentService.Create w ctx now req).1 =
              .returned (some { ID := w.nextID, Body := req.Body, CreatedAt := now,
                                UpdatedAt := none, AccountID := p, PostID := req.PostID },
                none)) ∧
          ∀ resp err, (commentService.Create w ctx now req).1 = .returned (some resp, err) →
            resp.AccountID = p ∧ resp.Body = req.Body ∧ resp.PostID = req.PostID)) ∧
    ((middleware.GetClaimsID ctx).2 = false →
      commentService.Create w ctx now req = (.returned (none, some .ErrUnauthorized), w)) := by
  refine ⟨fun hp => ⟨?_, fun hfresh hc => ?_⟩, fun hno => ?_⟩
  · simp only [commentService.Create, hp]
    rfl
  · refine ⟨fun h0 h1 h2 h3 h4 => ?_, fun resp err hok => ?_⟩
    · have h := (commentRepo_create_populates w
        { ID := 0, Body := req.Body, CreatedAt := now,
          UpdatedAt := { Time := 0, Valid := false }, AccountID := p, PostID := req.PostID }
        hfresh hc h0 h1 h2 h3 h4).1
      simp only [commentService.Create, hp]
      revert h
      generalize commentRepository.Create w _ = g
      obtain ⟨g1, w1⟩ := g
      intro h
      simp only at h
      subst h
      simp [NewCommentResponse, commentRepository.insertedRow]
    · revert hok
      simp only [commentService.Create, hp]
      have h := fun e' => commentRepo_create_ok w
        { ID := 0, Body := req.Body, CreatedAt := now,
          UpdatedAt := { Time := 0, Valid := false }, AccountID := p, PostID := req.PostID }
        e' hfresh hc
      revert h
      generalize commentRepository.Create w _ = g
      obtain ⟨g1, w1⟩ := g
      rcases g1 with ⟨_ | e2, c1⟩ | _
      · intro h hresp
        have hc1 := h c1 rfl
        simp at hresp
        rw [← hresp.1, hc1]
        simp [NewCommentResponse, commentRepository.insertedRow]
      · intro _ hresp
        simp at hresp
      · intro _ hresp
        simp at hresp
  · rcases hq : middleware.GetClaimsID ctx with ⟨q, valid⟩
    simp only [hq] at hno
    subst hno
    simp [commentService.Create, hq]

/-- C12 for principal 7 and for no principal on the empty world. -/
theorem create_stamps_owner_witness :
    (commentService.Create emptyComments { claimsID := some 7 } 20
        { Body := "hello", PostID := 3 }).1 =
      .returned (some { ID := 1, Body := "hello", CreatedAt := 20, UpdatedAt := none,
                        AccountID := 7, PostID := 3 }, none) ∧
    commentService.Create emptyComments { claimsID := none } 20
        { Body := "hello", PostID := 3 } =
      (.returned (none, some .ErrUnauthorized), emptyComments) :=
  ⟨(((create_stamps_owner emptyComments { claimsID := some 7 } 20
        { Body := "hello", PostID := 3 } 7).1 (by decide)).2
      (by decide) (by decide)).1
      (by decide) (by decide) (by decide) (by decide) (by decide),
    (create_stamps_owner emptyComments { claimsID := none } 20
        { Body := "hello", PostID := 3 } 0).2 (by decide)⟩

/-- C13: every response that `commentService.Update` returns has the requested body, the
time of the update as `updated_at`, and the `id`, `account_id`, `post_id` and `created_at`
of the stored comment before the update, which in a coherent state is the comment the
service read; the guard admitted the principal as its owner. Conversely, for a stored
comment read by the service, the guard admitting and the calls of the repository
`Update` answered, the service does return that response. -/
theorem update_response_shape (w : World Comment) (ctx : Context) (now : Nat)
    (req : CommentUpdateRequest) :
    (∀ resp, (commentService.Update w ctx now req).1 = .returned (some resp, none) →
      ∃ c r, (commentRepository.Get w req.ID).1 = (some c, none) ∧
        middleware.IsMe ctx c.AccountID = true ∧
        commentRepository.selectRow w.rows c.ID = some r ∧
        resp.Body = req.Body ∧ resp.UpdatedAt = some now ∧ resp.ID = r.ID ∧
        resp.AccountID = r.AccountID ∧ resp.PostID = r.PostID ∧
        resp.CreatedAt = r.CreatedAt ∧
        (commentRepository.coherent w → r = c)) ∧
    (∀ c r, (commentRepository.Get w req.ID).1 = (some c, none) →
      middleware.IsMe ctx c.AccountID = true →
      commentRepository.selectRow w.rows c.ID = some r →
      (commentRepository.Get w req.ID).2.faultAt 0 = none →
      (commentRepository.Get w req.ID).2.faultAt 1 = none →
      (commentRepository.Get w req.ID).2.faultAt 2 = none →
      (commentRepository.Get w req.ID).2.faultAt 3 = none →
      (commentRepository.Get w req.ID).2.faultAt 4 = none →
      (commentService.Update w ctx now req).1 =
        .returned (some { ID := r.ID, Body := req.Body, CreatedAt := r.CreatedAt,
                          UpdatedAt := some now, AccountID := r.AccountID,
                          PostID := r.PostID }, none)) := by
  refine ⟨fun resp hok => ?_, fun c r => commentService_Update_succeeds w ctx now req c r⟩
  obtain ⟨c, r, hget, hme, hr, h1, h2, h3, h4, h5, h6⟩ :=
    commentService_Update_ok w ctx now req resp hok
  refine ⟨c, r, hget, hme, hr, h1, h2, h3, h4, h5, h6, fun hcoh => ?_⟩
  have hrow := commentRepo_Get_ok_row w req.ID c hget hcoh
  have hid := commentRepo_selectRow_ID hrow
  rw [hid, hrow] at hr
  exact (Option.some.inj hr).symm

/-- C13 for the owner 7 of the stored comment, on a cold and on a warm cache. -/
theorem update_response_shape_witness :
    (commentService.Update coldComments { claimsID := some 7 } 20
        { ID := 1, Body := "second" }).1 =
      .returned (some { ID := 1, Body := "second", CreatedAt := 10, UpdatedAt := some 20,
                        AccountID := 7, PostID := 3 }, none) ∧
    ∃ c r, (commentRepository.Get warmComments 1).1 = (some c, none) ∧
      middleware.IsMe { claimsID := some 7 } c.AccountID = true ∧
      commentRepository.selectRow warmComments.rows c.ID = some r ∧
      "second" = "second" ∧ some 20 = some 20 ∧ (1 : Int) = r.ID ∧ (7 : Int) = r.AccountID ∧
      (3 : Int) = r.PostID ∧ (10 : Nat) = r.CreatedAt ∧
      (commentRepository.coherent warmComments → r = c) :=
  ⟨(update_response_shape coldComments { claimsID := some 7 } 20
      { ID := 1, Body := "second" }).2 sampleComment sampleComment
      (by decide) (by decide) (by decide) (by decide) (by decide) (by decide) (by decide)
      (by decide),
    (update_response_shape warmComments { claimsID := some 7 } 20
      { ID := 1, Body := "second" }).1
      { ID := 1, Body := "second", CreatedAt := 10, UpdatedAt := some 20,
        AccountID := 7, PostID := 3 } (by decide)⟩

/-- C14: for the comment and the post repository, on every table and every cache whose
entries are the rows of their identifiers, with its calls answered, `Get(id)` returns
what it returns on the same table with an empty cache: the row of `id`, or
`sql.ErrNoRows`. -/
theorem cache_transparent (w : World Comment) (id : Int) (v : World Post) (pid : Int) :
    (commentRepository.coherent w →
      w.faultAt 0 = none → w.faultAt 1 = none → w.faultAt 2 = none →
      (commentRepository.Get w id).1 = (commentRepository.Get (w.withCache []) id).1 ∧
        (commentRepository.Get w id).1 =
          match commentRepository.selectRow w.rows id with
          | some r => (some r, none)
          | none => (none, some .ErrNoRows)) ∧
    (postRepository.coherent v →
      v.faultAt 0 = none → v.faultAt 1 = none → v.faultAt 2 = none →
      (postRepository.Get v pid).1 = (postRepository.Get (v.withCache []) pid).1 ∧
        (postRepository.Get v pid).1 =
          match postRepository.selectRow v.rows pid with
          | some r => (some r, none)
          | none => (none, some .ErrNoRows)) := by
  refine ⟨fun h h0 h1 h2 => ?_, fun h h0 h1 h2 => ?_⟩
  · have hw := commentRepo_Get_coherent w id h h0 h1 h2
    have he := commentRepo_Get_coherent (w.withCache []) id
      (commentRepo_coherent_empty _ rfl) h0 h1 h2
    exact ⟨hw.trans he.symm, hw⟩
  · have hv := postRepo_Get_coherent v pid h h0 h1 h2
    have he := postRepo_Get_coherent (v.withCache []) pid
      (postRepo_coherent_empty _ rfl) h0 h1 h2
    exact ⟨hv.trans he.symm, hv⟩

/-- C14 on the warm worlds, for a cached identifier and for an absent one. -/
theorem cache_transparent_witness :
    ((commentRepository.Get warmComments 1).1 =
        (commentRepository.Get (warmComments.withCache []) 1).1 ∧
      (commentRepository.Get warmComments 5).1 =
        (commentRepository.Get (warmComments.withCache []) 5).1) ∧
    ((postRepository.Get warmPosts 1).1 = (postRepository.Get (warmPosts.withCache []) 1).1 ∧
      (postRepository.Get warmPosts 5).1 =
        (postRepository.Get (warmPosts.withCache []) 5).1) :=
  have hc : commentRepository.coherent warmComments :=
    commentRepo_coherent_set coldComments warmComments 1 sampleComment rfl (by decide)
      (by decide) (commentRepo_coherent_empty _ rfl)
  have hp : postRepository.coherent warmPosts :=
    postRepo_coherent_set coldPosts warmPosts 1 samplePost rfl (by decide) (by decide)
      (postRepo_coherent_empty _ rfl)
  ⟨⟨((cache_transparent warmComments 1 warmPosts 1).1 hc (by decide) (by decide)
        (by decide)).1,
      ((cache_transparent warmComments 5 warmPosts 5).1 hc (by decide) (by decide)
        (by decide)).1⟩,
    ⟨((cache_transparent warmComments 1 warmPosts 1).2 hp (by decide) (by decide)
        (by decide)).1,
      ((cache_transparent warmComments 5 warmPosts 5).2 hp (by decide) (by decide)
        (by decide)).1⟩⟩

/-- C15: with the path identifier parsed and the body decoded and valid, the comment
handlers answer an error of the service with `web.MarshalError` and the status of that
error: for `Update` and `Delete`, 401 for `ErrUnauthorized`, 404 for `ErrCommentNotFound`
and 500 for every other error; for `Get`, 404 for `ErrCommentNotFound` and 500 otherwise;
for `Create`, 401 for `ErrUnauthorized` and 500 otherwise.  They answer success with 200
(`Get`, `Update`), 201 (`Create`) and 204 (`Delete`). -/
theorem handler_status_codes (w : World Comment) (ctx : Context) (now : Nat) (id : Int)
    (body : String) (creq : CommentCreateRequest) :
    (body ≠ "" →
      (∀ res err,
        (commentService.Update w ctx now { ID := id, Body := body }).1 =
          .returned (res, some err) →
        (commentHandler.Update w ctx now (.ok id) (some body)).1 =
          .returned (.MarshalError
            (if err = .ErrUnauthorized then 401
              else if err = .ErrCommentNotFound then 404 else 500) err)) ∧
      (∀ res,
        (commentService.Update w ctx now { ID := id, Body := body }).1 =
          .returned (res, none) →
        (commentHandler.Update w ctx now (.ok id) (some body)).1 =
          .returned (.MarshalComment 200 res))) ∧
    ((∀ err, (commentService.Delete w ctx { ID := id }).1 = .returned (some err) →
        (commentHandler.Delete w ctx (.ok id)).1 =
          .returned (.MarshalError
            (if err = .ErrUnauthorized then 401
              else if err = .ErrCommentNotFound then 404 else 500) err)) ∧
      ((commentService.Delete w ctx { ID := id }).1 = .returned none →
        (commentHandler.Delete w ctx (.ok id)).1 = .returned (.WriteHeader 204))) ∧
    ((∀ res err, (commentService.Get w { ID := id }).1 = .returned (res, some err) →
        (commentHandler.Get w (.ok id)).1 =
          .returned (.MarshalError (if err = .ErrCommentNotFound then 404 else 500) err)) ∧
      (∀ res, (commentService.Get w { ID := id }).1 = .returned (res, none) →
        (commentHandler.Get w (.ok id)).1 = .returned (.MarshalComment 200 res))) ∧
    (creq.Body ≠ "" → creq.PostID ≠ 0 →
      (∀ res err, (commentService.Create w ctx now creq).1 = .returned (res, some err) →
        (commentHandler.Create w ctx now (some creq)).1 =
          .returned (.MarshalError (if err = .ErrUnauthorized then 401 else 500) err)) ∧
      (∀ res, (commentService.Create w ctx now creq).1 = .returned (res, none) →
        (commentHandler.Create w ctx now (some creq)).1 =
          .returned (.MarshalComment 201 res))) := by
  refine ⟨fun hb => ?_, ?_, ?_, fun hb hp => ?_⟩
  · have hv : validation.Struct [("Body", decide (body = ""))] = none :=
      validation_Struct_ok _ (by simp [hb])
    simp only [commentHandler.Update, hv]
    generalize commentService.Update w ctx now { ID := id, Body := body } = g
    obtain ⟨g1, w1⟩ := g
    rcases g1 with ⟨res, _ | err⟩ | _
    · simp [http.StatusOK]
    · simp
      cases err <;> simp [http.StatusUnauthorized, http.StatusNotFound,
        http.StatusInternalServerError]
    · simp
  · simp only [commentHandler.Delete]
    generalize commentService.Delete w ctx { ID := id } = g
    obtain ⟨g1, w1⟩ := g
    rcases g1 with (_ | err) | _
    · simp [http.StatusNoContent]
    · simp
      cases err <;> simp [http.StatusUnauthorized, http.StatusNotFound,
        http.StatusInternalServerError]
    · simp
  · simp only [commentHandler.Get]
    generalize commentService.Get w { ID := id } = g
    obtain ⟨g1, w1⟩ := g
    rcases g1 with ⟨res, _ | err⟩ | _
    · simp [http.StatusOK]
    · simp
      cases err <;> simp [http.StatusNotFound, http.StatusInternalServerError]
    · simp
  · have hv : validation.Struct
        [("Body", decide (creq.Body = "")), ("PostID", decide (creq.PostID = 0))] = none :=
      validation_Struct_ok _ (by simp [hb, hp])
    simp only [commentHandler.Create, hv]
    generalize commentService.Create w ctx now creq = g
    obtain ⟨g1, w1⟩ := g
    rcases g1 with ⟨res, _ | err⟩ | _
    · simp [http.StatusCreated]
    · simp
      cases err <;> simp [http.StatusUnauthorized, http.StatusInternalServerError]
    · simp

/-- C15 end to end: a stranger, a missing comment, an unreachable cache and the owner on
`Update`; the owner on `Delete`; `Get`; `Create` with and without a principal. -/
theorem handler_status_codes_witness :
    (commentHandler.Update coldComments { claimsID := some 8 } 20 (.ok 1) (some "mine")).1 =
      .returned (.MarshalError 401 .ErrUnauthorized) ∧
    (commentHandler.Update emptyComments { claimsID := some 7 } 20 (.ok 5) (some "x")).1 =
      .returned (.MarshalError 404 .ErrCommentNotFound) ∧
    (commentHandler.Update cacheDownComments { claimsID := some 7 } 20 (.ok 1)
        (some "second")).1 =
      .returned (.MarshalError 500 .ErrServer) ∧
    (commentHandler.Update coldComments { claimsID := some 7 } 20 (.ok 1) (some "second")).1 =
      .returned (.MarshalComment 200
        (some { ID := 1, Body := "second", CreatedAt := 10, UpdatedAt := some 20,
                AccountID := 7, PostID := 3 })) ∧
    (commentHandler.Delete coldComments { claimsID := some 7 } (.ok 1)).1 =
      .returned (.WriteHeader 204) ∧
    (commentHandler.Get emptyComments (.ok 5)).1 =
      .returned (.MarshalError 404 .ErrCommentNotFound) ∧
    (commentHandler.Get coldComments (.ok 1)).1 =
      .returned (.MarshalComment 200 (some (NewCommentResponse sampleComment))) ∧
    (commentHandler.Create emptyComments { claimsID := none } 20
        (some { Body := "hello", PostID := 3 })).1 =
      .returned (.MarshalError 401 .ErrUnauthorized) ∧
    (commentHandler.Create emptyComments { claimsID := some 7 } 20
        (some { Body := "hello", PostID := 3 })).1 =
      .returned (.MarshalComment 201
        (some { ID := 1, Body := "hello", CreatedAt := 20, UpdatedAt := none,
                AccountID := 7, PostID := 3 })) :=
  ⟨((handler_status_codes coldComments { claimsID := some 8 } 20 1 "mine"
        { Body := "hello", PostID := 3 }).1 (by decide)).1 none .ErrUnauthorized (by decide),
    ((handler_status_codes emptyComments { claimsID := some 7 } 20 5 "x"
        { Body := "hello", PostID := 3 }).1 (by decide)).1 none .ErrCommentNotFound
      (by decide),
    ((handler_status_codes cacheDownComments { claimsID := some 7 } 20 1 "second"
        { Body := "hello", PostID := 3 }).1 (by decide)).1 none .ErrServer (by decide),
    ((handler_status_codes coldComments { claimsID := some 7 } 20 1 "second"
        { Body := "hello", PostID := 3 }).1 (by decide)).2 _ (by decide),
    (handler_status_codes coldComments { claimsID := some 7 } 20 1 "second"
        { Body := "hello", PostID := 3 }).2.1.2 (by decide),
    (handler_status_codes emptyComments { claimsID := some 7 } 20 5 "x"
        { Body := "hello", PostID := 3 }).2.2.1.1 none .ErrCommentNotFound (by decide),
    (handler_status_codes coldComments { claimsID := some 7 } 20 1 "x"
        { Body := "hello", PostID := 3 }).2.2.1.2 _ (by decide),
    ((handler_status_codes emptyComments { claimsID := none } 20 1 "x"
        { Body := "hello", PostID := 3 }).2.2.2 (by decide) (by decide)).1 none
      .ErrUnauthorized (by decide),
    ((handler_status_codes emptyComments { claimsID := some 7 } 20 1 "x"
        { Body := "hello", PostID := 3 }).2.2.2 (by decide) (by decide)).2 _ (by decide)⟩

/-- C16 on the code: a request to list comments with valid pagination and no `post_id`
parameter is answered 400 with the error of `strconv.Atoi` on the empty string, and the
service is not called (the world is untouched); with `post_id=3` the service is called and
the answer is 200. -/
theorem list_without_post_id_rejected (w : World Comment) (limit offset : Int) :
    commentHandler.List w (.ok (limit, offset)) "" =
        (.returned (.MarshalError 400
          (.infra "strconv.Atoi: parsing \"\": invalid syntax")), w) ∧
      (commentHandler.List coldComments (.ok (10, 0)) "3").1 =
        .returned (.MarshalComments 200 (some [NewCommentResponse sampleComment])) := by
  refine ⟨?_, by decide⟩
  have h : strconv.Atoi "" =
      .error (.infra "strconv.Atoi: parsing \"\": invalid syntax") := by rfl
  simp [commentHandler.List, h, http.StatusBadRequest]

/-- C17: for the comment and the post repository, from every state in which each cache
entry under the key of an identifier is the row of the table with that identifier (so
that no identifier without a row has an entry), every successful `Create`, `Get`, `List`,
`Update` and `Delete` leads to a state in which the same holds. -/
theorem coherence_invariant (like : String → String → Bool) (w : World Comment)
    (v : World Post) :
    (commentRepository.coherent w →
      (∀ e e', (commentRepository.Create w e).1 = .returned (none, e') →
        commentRepository.coherent (commentRepository.Create w e).2) ∧
      (∀ id c, (commentRepository.Get w id).1 = (some c, none) →
        commentRepository.coherent (commentRepository.Get w id).2) ∧
      (∀ limit offset post_id rs,
        (commentRepository.List w limit offset post_id).1 = .ok rs →
        commentRepository.coherent (commentRepository.List w limit offset post_id).2) ∧
      (∀ e e', (commentRepository.Update w e).1 = .returned (none, e') →
        commentRepository.coherent (commentRepository.Update w e).2) ∧
      (∀ id, (commentRepository.Delete w id).1 = none →
        commentRepository.coherent (commentRepository.Delete w id).2)) ∧
    (postRepository.coherent v →
      (∀ p p', (postRepository.Create v p).1 = .returned (none, p') →
        postRepository.coherent (postRepository.Create v p).2) ∧
      (∀ id c, (postRepository.Get v id).1 = (some c, none) →
        postRepository.coherent (postRepository.Get v id).2) ∧
      (∀ limit offset title rs,
        (postRepository.List like v limit offset title).1 = .ok rs →
        postRepository.coherent (postRepository.List like v limit offset title).2) ∧
      (∀ p p', (postRepository.Update v p).1 = .returned (none, p') →
        postRepository.coherent (postRepository.Update v p).2) ∧
      (∀ id, (postRepository.Delete v id).1 = none →
        postRepository.coherent (postRepository.Delete v id).2)) := by
  refine ⟨fun h => ⟨?_, ?_, ?_, ?_, ?_⟩, fun h => ⟨?_, ?_, ?_, ?_, ?_⟩⟩
  · exact fun e _ _ => commentRepo_coherent_Create w e h
  · exact fun id _ _ => commentRepo_coherent_Get w id h
  · intro limit offset post_id _ _
    exact commentRepo_coherent_congr w _
      (commentRepo_List_frame w limit offset post_id).1
      (commentRepo_List_frame w limit offset post_id).2.1 h
  · exact fun e e' hok => commentRepo_coherent_Update w e e' hok h
  · exact fun id hok => commentRepo_coherent_Delete w id hok h
  · exact fun p _ _ => postRepo_coherent_Create v p h
  · exact fun id _ _ => postRepo_coherent_Get v id h
  · intro limit offset title _ _
    exact postRepo_coherent_congr v _
      (postRepo_List_frame like v limit offset title).1
      (postRepo_List_frame like v limit offset title).2.1 h
  · exact fun p p' hok => postRepo_coherent_Update v p p' hok h
  · exact fun id hok => postRepo_coherent_Delete v id hok h

/-- C17 from the cold worlds: the states after a `Get`, an `Update` and a `Create` are
coherent. -/
theorem coherence_invariant_witness :
    (commentRepository.coherent (commentRepository.Get coldComments 1).2 ∧
      commentRepository.coherent
        (commentRepository.Update coldComments { sampleComment with Body := "second" }).2 ∧
      commentRepository.coherent (commentRepository.Create coldComments sampleComment).2) ∧
    (postRepository.coherent (postRepository.Get coldPosts 1).2 ∧
      postRepository.coherent
        (postRepository.Update coldPosts { samplePost with Title := "C" }).2 ∧
      postRepository.coherent (postRepository.Delete coldPosts 1).2) :=
  have h := coherence_invariant (fun _ _ => true) coldComments coldPosts
  have hc := h.1 (commentRepo_coherent_empty _ rfl)
  have hp := h.2 (postRepo_coherent_empty _ rfl)
  ⟨⟨hc.2.1 1 sampleComment (by decide),
      hc.2.2.2.1 { sampleComment with Body := "second" }
        { sampleComment with Body := "second", UpdatedAt := { Time := 0, Valid := true } }
        (by decide),
      hc.1 sampleComment (commentRepository.insertedRow 2 sampleComment) (by decide)⟩,
    ⟨hp.2.1 1 samplePost (by decide),
      hp.2.2.2.1 { samplePost with Title := "C" }
        { samplePost with Title := "C", UpdatedAt := { Time := 0, Valid := true } }
        (by decide),
      hp.2.2.2.2 1 (by decide)⟩⟩

end PostApi
